import Mathlib

/-!
Word search generator: placement core.

A shallow embedding of the placement core of
`src/components/WordSearchGenerator.jsx` (`GRID_SIZE`, `DIRECTIONS`,
`canPlaceWord`, `placeWord`, `generateWordSearch`) and theorems about it.

Conventions of the embedding:

* a word is the list of its UTF-16 units (`List Char`), `word.length` and
  `word[i]` are the list length and the i-th element;
* a grid cell is a JavaScript string that is either `''` or one letter:
  `none` is `''`, `some ch` is the one-letter string;
* a grid is an array of arrays of cells; reading outside an array gives
  `undefined`, rendered by the outer `Option` of `cellAt`;
* rows, columns and direction components are JavaScript integers (`Int`);
* `Math.random()` returns a number in `[0,1)`: a value of `Rand`; the
  random source is the sequence of the values the successive calls return, and
  the code threads the count of calls made so far;
* the set `selectedWords` is the list of its elements in insertion order
  (the order `Array.from` yields); `selectedWords.has w` is list membership.
-/

namespace WordSearch

/-! ## Data model -/

/-- A word: the sequence of its characters. -/
abbrev Word := List Char

/-- A grid cell: `none` is the empty string, `some ch` a one-letter string. -/
abbrev Cell := Option Char

/-- The grid: an array of rows, each an array of cells. -/
abbrev Grid := List (List Cell)

/-- A direction `[dRow, dCol]`. -/
abbrev Direction := Int × Int

/-- The constant `GRID_SIZE = 15`. -/
def GRID_SIZE : Nat := 15

/-- The constant array `DIRECTIONS`, in source order. -/
def DIRECTIONS : List Direction :=
  [ (0, 1),    -- horizontal right
    (0, -1),   -- horizontal left
    (1, 0),    -- vertical down
    (-1, 0),   -- vertical up
    (1, 1),    -- diagonal down-right
    (-1, -1),  -- diagonal up-left
    (1, -1),   -- diagonal down-left
    (-1, 1) ]  -- diagonal up-right

/-- The record `{ word, positions, direction }` built by `placeWord`. -/
structure Placement where
  word : Word
  positions : List (Int × Int)
  direction : Direction
  deriving DecidableEq, Repr

/-- A value returned by `Math.random()`: the number `num / den`, which lies in
`[0, 1)`. Products with it are taken exactly (no rounding). -/
structure Rand where
  num : Nat
  den : Nat
  lt : num < den

/-- The value of `Math.floor(x * n)` for `x = num / den`. -/
def Rand.floorMul (x : Rand) (n : Nat) : Nat := x.num * n / x.den

/-- The random source: the value returned by the k-th call of `Math.random()`
(counting from 0). -/
abbrev RandomSource := Nat → Rand

/-! ## Grid access -/

/-- The read `grid[r][c]`: `none` is `undefined` (an index outside the array),
`some none` the empty string, `some (some ch)` a letter. -/
def cellAt (grid : Grid) (r c : Int) : Option Cell :=
  if 0 ≤ r ∧ 0 ≤ c then
    match grid[r.toNat]? with
    | none => none
    | some cells => cells[c.toNat]?
  else none

/-- The write `grid[r][c] = v` at a cell that exists. Outside the grid the
source raises (missing row) or grows the row (column outside it); the model is
the source only for a cell inside the grid, which is where the generator
writes: after a successful `canPlaceWord`, or at a cell it has just read. The
value given outside the grid (the grid left alone) is not a statement about the
source. -/
def setCell (grid : Grid) (r c : Int) (v : Cell) : Grid :=
  if 0 ≤ r ∧ 0 ≤ c then
    match grid[r.toNat]? with
    | none => grid
    | some cells => grid.set r.toNat (cells.set c.toNat v)
  else grid

/-- The grid is `GRID_SIZE` rows of `GRID_SIZE` cells. -/
def IsGrid15 (grid : Grid) : Prop :=
  grid.length = GRID_SIZE ∧ ∀ line ∈ grid, line.length = GRID_SIZE

instance (grid : Grid) : Decidable (IsGrid15 grid) := by
  unfold IsGrid15; infer_instance

/-- Both coordinates lie in `[0, GRID_SIZE)`. -/
def InBounds (r c : Int) : Prop :=
  0 ≤ r ∧ r < GRID_SIZE ∧ 0 ≤ c ∧ c < GRID_SIZE

instance (r c : Int) : Decidable (InBounds r c) := by
  unfold InBounds; infer_instance

/-! ## canPlaceWord -/

/-- The `for` loop of `canPlaceWord`, from index `i` on; the list is the part
of the word not yet visited (`word[i]`, `word[i+1]`, ...). -/
def canPlaceWordLoop (grid : Grid) (row col dRow dCol : Int) :
    Nat → List Char → Bool
  | _, [] => true
  | i, ch :: rest =>
    let newRow := row + i * dRow
    let newCol := col + i * dCol
    if newRow < 0 ∨ newRow ≥ GRID_SIZE ∨ newCol < 0 ∨ newCol ≥ GRID_SIZE then
      false
    else
      let currentCell := cellAt grid newRow newCol
      if currentCell ≠ some none ∧ currentCell ≠ some (some ch) then
        false
      else
        canPlaceWordLoop grid row col dRow dCol (i + 1) rest

/-- The function `canPlaceWord(grid, word, row, col, direction)`. (On a grid
with a missing row the source raises instead of returning; every theorem below
is about grids of 15 rows of 15 cells.) -/
def canPlaceWord (grid : Grid) (word : Word) (row col : Int)
    (direction : Direction) : Bool :=
  canPlaceWordLoop grid row col direction.1 direction.2 0 word

/-! ## placeWord -/

/-- The `for` loop of `placeWord`, from index `i` on: writes each letter and
pushes its coordinates. -/
def placeWordLoop (row col dRow dCol : Int) :
    Nat → List Char → Grid → List (Int × Int) → Grid × List (Int × Int)
  | _, [], grid, positions => (grid, positions)
  | i, ch :: rest, grid, positions =>
    let newRow := row + i * dRow
    let newCol := col + i * dCol
    placeWordLoop row col dRow dCol (i + 1) rest
      (setCell grid newRow newCol (some ch)) (positions ++ [(newRow, newCol)])

/-- The function `placeWord(grid, word, row, col, direction)`: the grid after
the writes, and the returned placement record. Its contract is that
`canPlaceWord` returned true, so every cell of the line is inside the grid;
when a row of the line is outside the grid the source raises and returns no
record, and the value of the model there is not a statement about the source. -/
def placeWord (grid : Grid) (word : Word) (row col : Int)
    (direction : Direction) : Grid × Placement :=
  let r := placeWordLoop row col direction.1 direction.2 0 word grid []
  (r.1, { word := word, positions := r.2, direction := direction })

/-! ## generateWordSearch -/

/-- The comparator `(a, b) => b.length - a.length` puts `a` before `b` when
`a` is at least as long. -/
def LongerFirst (a b : Word) : Prop := b.length ≤ a.length

instance : DecidableRel LongerFirst := fun a b => by
  unfold LongerFirst; infer_instance

instance : IsTotal Word LongerFirst := ⟨fun a b => Nat.le_total b.length a.length⟩

instance : IsTrans Word LongerFirst := ⟨fun _ _ _ hab hbc => Nat.le_trans hbc hab⟩

/-- The call `.sort((a, b) => b.length - a.length)`: a stable sort by
descending length. -/
def sortByLength (ws : List Word) : List Word :=
  List.insertionSort LongerFirst ws

/-- The array `otherWords`: the words not in the selected set. -/
def otherWords (words selectedWords : List Word) : List Word :=
  words.filter (fun word => decide (word ∉ selectedWords))

/-- The array `limitedOtherWords`. -/
def limitedOtherWords (words selectedWords : List Word) : List Word :=
  (sortByLength (otherWords words selectedWords)).take 20

/-- The array `wordsToPlace`: sorted selected words, then the limited others. -/
def wordsToPlace (words selectedWords : List Word) : List Word :=
  sortByLength selectedWords ++ limitedOtherWords words selectedWords

/-- The mutable locals of `generateWordSearch` during the placement loop,
with the number of `Math.random()` calls made so far. -/
structure GenState where
  grid : Grid
  placements : List Placement
  unplacedWords : List Word
  calls : Nat
  deriving DecidableEq

/-- The three draws of one attempt, made from call `k` on:
`DIRECTIONS[Math.floor(Math.random() * DIRECTIONS.length)]`. -/
def drawDirection (rnd : RandomSource) (k : Nat) : Direction :=
  DIRECTIONS.get ⟨(rnd k).floorMul DIRECTIONS.length, by
    have hd : 0 < (rnd k).den := Nat.lt_of_le_of_lt (Nat.zero_le _) (rnd k).lt
    have hlt := (rnd k).lt
    show (rnd k).num * 8 / (rnd k).den < 8
    rw [Nat.div_lt_iff_lt_mul hd]
    omega⟩

/-- The draw `Math.floor(Math.random() * GRID_SIZE)` made at call `k`. -/
def drawIndex (rnd : RandomSource) (k : Nat) : Int :=
  ((rnd k).floorMul GRID_SIZE : Nat)

/-- The retry loop `for (attempt = 0; attempt < attempts && !placed; attempt++)`
with `remaining` iterations left; returns the flag `placed` and the state. -/
def attemptLoop (rnd : RandomSource) (word : Word) :
    Nat → GenState → Bool × GenState
  | 0, st => (false, st)
  | remaining + 1, st =>
    let direction := drawDirection rnd st.calls
    let row := drawIndex rnd (st.calls + 1)
    let col := drawIndex rnd (st.calls + 2)
    if canPlaceWord st.grid word row col direction then
      let r := placeWord st.grid word row col direction
      (true, { grid := r.1, placements := st.placements ++ [r.2],
               unplacedWords := st.unplacedWords, calls := st.calls + 3 })
    else
      attemptLoop rnd word remaining { st with calls := st.calls + 3 }

/-- The retry budget `selectedWords.has(word) ? 500 : 100`. -/
def attemptsFor (selectedWords : List Word) (word : Word) : Nat :=
  if word ∈ selectedWords then 500 else 100

/-- The body of `for (const word of wordsToPlace)`. -/
def wordStep (rnd : RandomSource) (selectedWords : List Word)
    (st : GenState) (word : Word) : GenState :=
  let r := attemptLoop rnd word (attemptsFor selectedWords word) st
  if r.1 = false then
    { r.2 with unplacedWords := r.2.unplacedWords ++ [word] }
  else r.2

/-- The letter `String.fromCharCode(65 + Math.floor(Math.random() * 26))`. -/
def randomLetter (x : Rand) : Char := Char.ofNat (65 + x.floorMul 26)

/-- The body of the fill loops at cell `(i, j)`. -/
def fillCell (rnd : RandomSource) (s : Grid × Nat) (ij : Nat × Nat) : Grid × Nat :=
  if cellAt s.1 ij.1 ij.2 = some none then
    (setCell s.1 ij.1 ij.2 (some (randomLetter (rnd s.2))), s.2 + 1)
  else s

/-- The cells in the order the nested fill loops visit them. -/
def fillOrder : List (Nat × Nat) :=
  (List.range GRID_SIZE).flatMap (fun i => (List.range GRID_SIZE).map (fun j => (i, j)))

/-- The fill loops: every empty cell gets a random letter. -/
def fillEmpty (rnd : RandomSource) (grid : Grid) (calls : Nat) : Grid × Nat :=
  fillOrder.foldl (fillCell rnd) (grid, calls)

/-- The value `generateWordSearch` produces: the grid and the placements it
stores with `setGrid` and `setWordPlacements`, and its local `unplacedWords`. -/
structure GenerationResult where
  grid : Grid
  placements : List Placement
  unplacedWords : List Word
  deriving DecidableEq

/-- The initial grid `Array(GRID_SIZE).fill().map(() => Array(GRID_SIZE).fill(''))`. -/
def emptyGrid : Grid := List.replicate GRID_SIZE (List.replicate GRID_SIZE none)

/-- The state after the placement loop of `generateWordSearch`. -/
def placementLoop (words selectedWords : List Word) (rnd : RandomSource) : GenState :=
  (wordsToPlace words selectedWords).foldl (wordStep rnd selectedWords)
    { grid := emptyGrid, placements := [], unplacedWords := [], calls := 0 }

/-- The function `generateWordSearch`, with `words` and `selectedWords` (the
component state it reads) and the random source as arguments. -/
def generateWordSearch (words selectedWords : List Word) (rnd : RandomSource) :
    GenerationResult :=
  let st := placementLoop words selectedWords rnd
  { grid := (fillEmpty rnd st.grid st.calls).1,
    placements := st.placements,
    unplacedWords := st.unplacedWords }

/-- The random source whose every call returns 0. -/
def zeroSource : RandomSource := fun _ => ⟨0, 1, by decide⟩

/-- The random source whose fourth call returns 0.25 and every other call 0. -/
def crossingSource : RandomSource :=
  fun k => if k = 3 then ⟨1, 4, by decide⟩ else ⟨0, 1, by decide⟩


/-! ## Specification vocabulary -/

/-- What `canPlaceWord` requires of index `i` when the letter there is `ch`. -/
def CellAccepts (grid : Grid) (row col dRow dCol : Int) (i : Nat) (ch : Char) : Prop :=
  InBounds (row + i * dRow) (col + i * dCol) ∧
    (cellAt grid (row + i * dRow) (col + i * dCol) = some none ∨
     cellAt grid (row + i * dRow) (col + i * dCol) = some (some ch))

/-- The straight line of `n` cells from `(row, col)` with step `(dRow, dCol)`. -/
def linePositions (row col dRow dCol : Int) (n : Nat) : List (Int × Int) :=
  (List.range n).map (fun (i : Nat) => (row + (i : Int) * dRow, col + (i : Int) * dCol))

/-- The character is one of the letters A-Z. -/
def IsUpperLetter (ch : Char) : Prop := 'A'.toNat ≤ ch.toNat ∧ ch.toNat ≤ 'Z'.toNat

instance (ch : Char) : Decidable (IsUpperLetter ch) := by
  unfold IsUpperLetter; infer_instance

/-- The attempt whose three draws start at call `k` passes `canPlaceWord` on
`grid`. -/
def attemptPasses (rnd : RandomSource) (grid : Grid) (word : Word) (k : Nat) : Bool :=
  canPlaceWord grid word (drawIndex rnd (k + 1)) (drawIndex rnd (k + 2)) (drawDirection rnd k)

/-- The call of `placeWord` with the three draws that start at call `k`. -/
def placeAt (rnd : RandomSource) (grid : Grid) (word : Word) (k : Nat) : Grid × Placement :=
  placeWord grid word (drawIndex rnd (k + 1)) (drawIndex rnd (k + 2)) (drawDirection rnd k)

/-- The placement is a straight line in one of the `DIRECTIONS`, inside the
grid, and the grid spells its word along it. -/
def PlacementOnGrid (grid : Grid) (p : Placement) : Prop :=
  p.direction ∈ DIRECTIONS ∧
  (∃ row col : Int,
    p.positions = linePositions row col p.direction.1 p.direction.2 p.word.length) ∧
  ∀ (i : Nat) (hi : i < p.word.length), ∃ r c : Int,
    p.positions[i]? = some (r, c) ∧ InBounds r c ∧ cellAt grid r c = some (some p.word[i])

/-- The invariant of the placement loop: the grid keeps its shape and every
placement recorded so far is still spelled on it. -/
def LoopInv (st : GenState) : Prop :=
  IsGrid15 st.grid ∧ ∀ p ∈ st.placements, PlacementOnGrid st.grid p

/-- The state in which the placement loop starts. -/
def initState : GenState :=
  { grid := emptyGrid, placements := [], unplacedWords := [], calls := 0 }

/-- The sorted non-priority words that `slice(0, 20)` leaves out. -/
def droppedOtherWords (words selectedWords : List Word) : List Word :=
  (sortByLength (otherWords words selectedWords)).drop 20

/-- The 16-letter word INTERNATIONALISM, one letter longer than the grid. -/
def longWord : Word :=
  ['I', 'N', 'T', 'E', 'R', 'N', 'A', 'T', 'I', 'O', 'N', 'A', 'L', 'I', 'S', 'M']


/-! ## Grid access lemmas -/

theorem Rand.floorMul_lt (x : Rand) (n : Nat) (hn : 0 < n) : x.floorMul n < n := by
  unfold Rand.floorMul
  have hd : 0 < x.den := Nat.lt_of_le_of_lt (Nat.zero_le _) x.lt
  rw [Nat.div_lt_iff_lt_mul hd]
  exact Nat.mul_lt_mul_of_lt_of_le x.lt (Nat.le_refl n) hn |>.trans_eq (Nat.mul_comm _ _)

theorem isGrid15_emptyGrid : IsGrid15 emptyGrid := by
  decide

theorem isGrid15_setCell {grid : Grid} (hg : IsGrid15 grid) (r c : Int) (v : Cell) :
    IsGrid15 (setCell grid r c v) := by
  unfold setCell
  split
  · split
    · exact hg
    · rename_i cells hcells
      obtain ⟨hlen, hrows⟩ := hg
      refine ⟨by simpa using hlen, ?_⟩
      intro l hl
      rcases List.mem_or_eq_of_mem_set hl with h | h
      · exact hrows l h
      · subst h
        rw [List.length_set]
        obtain ⟨hlt, hget⟩ := List.getElem?_eq_some.mp hcells
        exact hrows cells (hget ▸ List.getElem_mem hlt)
  · exact hg

theorem cellAt_setCell_of_ne (grid : Grid) (r c r' c' : Int) (v : Cell)
    (h : r' ≠ r ∨ c' ≠ c) :
    cellAt (setCell grid r c v) r' c' = cellAt grid r' c' := by
  unfold setCell
  split
  · rename_i hrc
    split
    · rfl
    · rename_i cells hcells
      unfold cellAt
      split
      · rename_i hrc'
        by_cases hr : r.toNat = r'.toNat
        · have hrr : r' = r := by omega
          have hcc : c.toNat ≠ c'.toNat := by
            rcases h with h | h
            · exact absurd hrr h
            · omega
          have hlt : r.toNat < grid.length := (List.getElem?_eq_some.mp hcells).1
          rw [← hr, List.getElem?_set_self hlt, hcells]
          simp only
          exact List.getElem?_set_ne hcc
        · rw [List.getElem?_set_ne hr]
      · rfl
  · rfl

theorem cellAt_setCell_self {grid : Grid} (hg : IsGrid15 grid) (r c : Int)
    (hb : InBounds r c) (v : Cell) :
    cellAt (setCell grid r c v) r c = some v := by
  obtain ⟨hr0, hr1, hc0, hc1⟩ := hb
  obtain ⟨hlen, hrows⟩ := hg
  have hrlt : r.toNat < grid.length := by
    rw [hlen]; exact (Int.toNat_lt hr0).mpr hr1
  have hcells : grid[r.toNat]? = some grid[r.toNat] := List.getElem?_eq_getElem hrlt
  have hclt : c.toNat < (grid[r.toNat]).length := by
    rw [hrows _ (List.getElem_mem hrlt)]; exact (Int.toNat_lt hc0).mpr hc1
  unfold setCell cellAt
  rw [if_pos ⟨hr0, hc0⟩, if_pos ⟨hr0, hc0⟩, hcells]
  simp only
  rw [List.getElem?_set_self hrlt]
  simp only
  exact List.getElem?_set_self hclt

theorem cellAt_defined {grid : Grid} (hg : IsGrid15 grid) (r c : Int)
    (hb : InBounds r c) : ∃ v, cellAt grid r c = some v := by
  obtain ⟨hr0, hr1, hc0, hc1⟩ := hb
  obtain ⟨hlen, hrows⟩ := hg
  have hrlt : r.toNat < grid.length := by
    rw [hlen]; exact (Int.toNat_lt hr0).mpr hr1
  have hclt : c.toNat < (grid[r.toNat]).length := by
    rw [hrows _ (List.getElem_mem hrlt)]; exact (Int.toNat_lt hc0).mpr hc1
  refine ⟨(grid[r.toNat])[c.toNat], ?_⟩
  unfold cellAt
  rw [if_pos ⟨hr0, hc0⟩, List.getElem?_eq_getElem hrlt]
  simp only
  exact List.getElem?_eq_getElem hclt

/-! ## canPlaceWord -/

theorem canPlaceWordLoop_iff (grid : Grid) (row col dRow dCol : Int) (letters : List Char)
    (i : Nat) :
    canPlaceWordLoop grid row col dRow dCol i letters = true ↔
      ∀ (j : Nat) (hj : j < letters.length),
        CellAccepts grid row col dRow dCol (i + j) letters[j] := by
  induction letters generalizing i with
  | nil => simp [canPlaceWordLoop]
  | cons ch rest ih =>
    unfold canPlaceWordLoop
    simp only
    split
    · rename_i hout
      constructor
      · intro h; exact absurd h (by simp)
      · intro h
        have h0 := (h 0 (by simp)).1
        simp only [Nat.add_zero, InBounds] at h0
        omega
    · rename_i hin
      split
      · rename_i hbad
        constructor
        · intro h; exact absurd h (by simp)
        · intro h
          have h0 := (h 0 (by simp)).2
          simp only [Nat.add_zero, List.getElem_cons_zero] at h0
          rcases h0 with h0 | h0
          · exact absurd h0 hbad.1
          · exact absurd h0 hbad.2
      · rename_i hok
        rw [ih (i + 1)]
        constructor
        · intro h j hj
          cases j with
          | zero =>
            refine ⟨?_, ?_⟩
            · simp only [Nat.add_zero, InBounds]; omega
            · simp only [Nat.add_zero, List.getElem_cons_zero]
              by_cases h1 : cellAt grid (row + i * dRow) (col + i * dCol) = some none
              · exact Or.inl h1
              · by_cases h2 : cellAt grid (row + i * dRow) (col + i * dCol) = some (some ch)
                · exact Or.inr h2
                · exact absurd ⟨h1, h2⟩ hok
          | succ j =>
            have hj' : j < rest.length := by simpa using hj
            have := h j hj'
            rw [show i + 1 + j = i + (j + 1) by omega] at this
            simpa using this
        · intro h j hj
          have := h (j + 1) (by simpa using hj)
          rw [show i + (j + 1) = i + 1 + j by omega] at this
          simpa using this

/-! ## placeWord -/

theorem cellAt_setCell_cases (grid : Grid) (r c r' c' : Int) (v : Cell) :
    cellAt (setCell grid r c v) r' c' = cellAt grid r' c' ∨
    cellAt (setCell grid r c v) r' c' = some v := by
  by_cases h : r' ≠ r ∨ c' ≠ c
  · exact Or.inl (cellAt_setCell_of_ne grid r c r' c' v h)
  · have hr : r' = r := by by_contra hne; exact h (Or.inl hne)
    have hc : c' = c := by by_contra hne; exact h (Or.inr hne)
    subst hr; subst hc
    unfold setCell
    split
    · rename_i hrc
      split
      · exact Or.inl rfl
      · rename_i cells hcells
        have hlt : r'.toNat < grid.length := (List.getElem?_eq_some.mp hcells).1
        unfold cellAt
        rw [if_pos hrc, List.getElem?_set_self hlt, hcells]
        simp only
        by_cases hclt : c'.toNat < cells.length
        · exact Or.inr (List.getElem?_set_self hclt)
        · left
          rw [List.getElem?_eq_none (by simpa using Nat.le_of_not_lt hclt),
            List.getElem?_eq_none (Nat.le_of_not_lt hclt)]
          simp
    · exact Or.inl rfl

theorem placeWordLoop_positions (row col dRow dCol : Int) (letters : List Char) (i : Nat)
    (grid : Grid) (positions : List (Int × Int)) :
    (placeWordLoop row col dRow dCol i letters grid positions).2 =
      positions ++ (List.range letters.length).map
        (fun j => (row + ((i + j : Nat) : Int) * dRow, col + ((i + j : Nat) : Int) * dCol)) := by
  induction letters generalizing i grid positions with
  | nil => simp [placeWordLoop]
  | cons ch rest ih =>
    unfold placeWordLoop
    simp only
    rw [ih, List.length_cons, List.range_succ_eq_map, List.map_cons, List.map_map,
      List.append_assoc]
    congr 1
    simp only [List.singleton_append, Nat.add_zero, List.cons.injEq, true_and]
    apply List.map_congr_left
    intro j _
    simp only [Function.comp]
    rw [show i + 1 + j = i + (j + 1) by omega]

theorem placeWordLoop_isGrid15 (row col dRow dCol : Int) (letters : List Char) (i : Nat)
    (grid : Grid) (positions : List (Int × Int)) (hg : IsGrid15 grid) :
    IsGrid15 (placeWordLoop row col dRow dCol i letters grid positions).1 := by
  induction letters generalizing i grid positions with
  | nil => simpa [placeWordLoop] using hg
  | cons ch rest ih =>
    unfold placeWordLoop
    exact ih _ _ _ (isGrid15_setCell hg _ _ _)

theorem placeWordLoop_cellAt_off (row col dRow dCol : Int) (letters : List Char) (i : Nat)
    (grid : Grid) (positions : List (Int × Int)) (r c : Int)
    (hoff : ∀ j, j < letters.length →
      r ≠ row + ((i + j : Nat) : Int) * dRow ∨ c ≠ col + ((i + j : Nat) : Int) * dCol) :
    cellAt (placeWordLoop row col dRow dCol i letters grid positions).1 r c =
      cellAt grid r c := by
  induction letters generalizing i grid positions with
  | nil => simp [placeWordLoop]
  | cons ch rest ih =>
    unfold placeWordLoop
    simp only
    rw [ih]
    · apply cellAt_setCell_of_ne
      simpa using hoff 0 (by simp)
    · intro j hj
      have := hoff (j + 1) (by simpa using hj)
      rwa [show i + (j + 1) = i + 1 + j by omega] at this

theorem placeWordLoop_cellAt_on (row col dRow dCol : Int) (hd : dRow ≠ 0 ∨ dCol ≠ 0)
    (letters : List Char) (i : Nat) (grid : Grid) (positions : List (Int × Int))
    (hg : IsGrid15 grid)
    (hb : ∀ j, j < letters.length →
      InBounds (row + ((i + j : Nat) : Int) * dRow) (col + ((i + j : Nat) : Int) * dCol))
    (j : Nat) (hj : j < letters.length) :
    cellAt (placeWordLoop row col dRow dCol i letters grid positions).1
      (row + ((i + j : Nat) : Int) * dRow) (col + ((i + j : Nat) : Int) * dCol) =
      some (some letters[j]) := by
  induction letters generalizing i grid positions j with
  | nil => simp at hj
  | cons ch rest ih =>
    unfold placeWordLoop
    simp only
    cases j with
    | zero =>
      rw [placeWordLoop_cellAt_off]
      · simp only [Nat.add_zero, List.getElem_cons_zero]
        apply cellAt_setCell_self hg
        simpa using hb 0 (by simp)
      · intro k _
        simp only [Nat.add_zero]
        rcases hd with hd | hd
        · left
          intro heq
          have h1 : ((k : Int) + 1) * dRow = 0 := by push_cast at heq; linarith
          rcases mul_eq_zero.mp h1 with h2 | h2
          · omega
          · exact hd h2
        · right
          intro heq
          have h1 : ((k : Int) + 1) * dCol = 0 := by push_cast at heq; linarith
          rcases mul_eq_zero.mp h1 with h2 | h2
          · omega
          · exact hd h2
    | succ j =>
      have hj' : j < rest.length := by simpa using hj
      have := ih (i + 1) (setCell grid (row + i * dRow) (col + i * dCol) (some ch))
        (positions ++ [(row + i * dRow, col + i * dCol)])
        (isGrid15_setCell hg _ _ _)
        (fun k hk => by
          have := hb (k + 1) (by simpa using hk)
          rwa [show i + (k + 1) = i + 1 + k by omega] at this)
        j hj'
      rw [show i + 1 + j = i + (j + 1) by omega] at this
      simpa using this

theorem placeWordLoop_cellAt_cases (row col dRow dCol : Int) (letters : List Char) (i : Nat)
    (grid : Grid) (positions : List (Int × Int)) (r c : Int) :
    cellAt (placeWordLoop row col dRow dCol i letters grid positions).1 r c = cellAt grid r c ∨
    ∃ ch ∈ letters,
      cellAt (placeWordLoop row col dRow dCol i letters grid positions).1 r c =
        some (some ch) := by
  induction letters generalizing i grid positions with
  | nil => simp [placeWordLoop]
  | cons ch rest ih =>
    unfold placeWordLoop
    simp only
    rcases ih (i + 1) (setCell grid (row + i * dRow) (col + i * dCol) (some ch))
      (positions ++ [(row + i * dRow, col + i * dCol)]) with h | ⟨x, hx, h⟩
    · rw [h]
      rcases cellAt_setCell_cases grid (row + i * dRow) (col + i * dCol) r c (some ch)
        with h2 | h2
      · exact Or.inl h2
      · exact Or.inr ⟨ch, by simp, h2⟩
    · exact Or.inr ⟨x, by simp [hx], h⟩

/-! ## The retry loop -/

theorem attemptLoop_spec (rnd : RandomSource) (word : Word) (n : Nat) (st : GenState) :
    (∃ j, j < n ∧
      (∀ j', j' < j → attemptPasses rnd st.grid word (st.calls + 3 * j') = false) ∧
      attemptPasses rnd st.grid word (st.calls + 3 * j) = true ∧
      attemptLoop rnd word n st =
        (true, { grid := (placeAt rnd st.grid word (st.calls + 3 * j)).1,
                 placements := st.placements ++ [(placeAt rnd st.grid word (st.calls + 3 * j)).2],
                 unplacedWords := st.unplacedWords,
                 calls := st.calls + 3 * (j + 1) })) ∨
    ((∀ j, j < n → attemptPasses rnd st.grid word (st.calls + 3 * j) = false) ∧
      attemptLoop rnd word n st = (false, { st with calls := st.calls + 3 * n })) := by
  induction n generalizing st with
  | zero =>
    right
    exact ⟨fun j hj => absurd hj (Nat.not_lt_zero j), rfl⟩
  | succ n ih =>
    unfold attemptLoop
    simp only
    by_cases hcan : canPlaceWord st.grid word (drawIndex rnd (st.calls + 1))
        (drawIndex rnd (st.calls + 2)) (drawDirection rnd st.calls) = true
    · left
      refine ⟨0, Nat.succ_pos n, fun j' hj' => absurd hj' (Nat.not_lt_zero j'), ?_, ?_⟩
      · simpa [attemptPasses] using hcan
      · rw [if_pos hcan]
        simp [placeAt]
    · rw [if_neg hcan]
      have hfalse : attemptPasses rnd st.grid word st.calls = false := by
        simpa [attemptPasses] using hcan
      rcases ih { st with calls := st.calls + 3 } with ⟨j, hj, hbefore, hat, heq⟩ | ⟨hall, heq⟩
      · left
        refine ⟨j + 1, Nat.succ_lt_succ hj, ?_, ?_, ?_⟩
        · intro j' hj'
          cases j' with
          | zero => simpa using hfalse
          | succ j' =>
            have := hbefore j' (Nat.lt_of_succ_lt_succ hj')
            simp only at this
            rwa [show st.calls + 3 + 3 * j' = st.calls + 3 * (j' + 1) by omega] at this
        · simp only at hat
          rwa [show st.calls + 3 + 3 * j = st.calls + 3 * (j + 1) by omega] at hat
        · rw [heq]
          simp only
          rw [show st.calls + 3 + 3 * j = st.calls + 3 * (j + 1) by omega,
            show st.calls + 3 + 3 * (j + 1) = st.calls + 3 * (j + 1 + 1) by omega]
      · right
        refine ⟨?_, ?_⟩
        · intro j hj
          cases j with
          | zero => simpa using hfalse
          | succ j =>
            have := hall j (Nat.lt_of_succ_lt_succ hj)
            simp only at this
            rwa [show st.calls + 3 + 3 * j = st.calls + 3 * (j + 1) by omega] at this
        · rw [heq]
          simp only
          rw [show st.calls + 3 + 3 * n = st.calls + 3 * (n + 1) by omega]

theorem wordStep_spec (rnd : RandomSource) (selectedWords : List Word) (st : GenState)
    (word : Word) :
    (∃ j, j < attemptsFor selectedWords word ∧
      (∀ j', j' < j → attemptPasses rnd st.grid word (st.calls + 3 * j') = false) ∧
      attemptPasses rnd st.grid word (st.calls + 3 * j) = true ∧
      wordStep rnd selectedWords st word =
        { grid := (placeAt rnd st.grid word (st.calls + 3 * j)).1,
          placements := st.placements ++ [(placeAt rnd st.grid word (st.calls + 3 * j)).2],
          unplacedWords := st.unplacedWords,
          calls := st.calls + 3 * (j + 1) }) ∨
    ((∀ j, j < attemptsFor selectedWords word →
        attemptPasses rnd st.grid word (st.calls + 3 * j) = false) ∧
      wordStep rnd selectedWords st word =
        { grid := st.grid, placements := st.placements,
          unplacedWords := st.unplacedWords ++ [word],
          calls := st.calls + 3 * attemptsFor selectedWords word }) := by
  unfold wordStep
  rcases attemptLoop_spec rnd word (attemptsFor selectedWords word) st with
    ⟨j, hj, hbefore, hat, heq⟩ | ⟨hall, heq⟩
  · left
    exact ⟨j, hj, hbefore, hat, by simp [heq]⟩
  · right
    exact ⟨hall, by simp [heq]⟩

/-! ## placeWord after a successful canPlaceWord -/

theorem direction_ne_zero : ∀ d ∈ DIRECTIONS, d.1 ≠ 0 ∨ d.2 ≠ 0 := by
  decide

theorem drawDirection_mem (rnd : RandomSource) (k : Nat) : drawDirection rnd k ∈ DIRECTIONS := by
  unfold drawDirection
  exact List.get_mem _ _ _

theorem linePositions_length (row col dRow dCol : Int) (n : Nat) :
    (linePositions row col dRow dCol n).length = n := by
  simp [linePositions]

theorem linePositions_getElem? (row col dRow dCol : Int) (n i : Nat) (hi : i < n) :
    (linePositions row col dRow dCol n)[i]? = some (row + (i : Int) * dRow, col + (i : Int) * dCol) := by
  simp [linePositions, List.getElem?_map, List.getElem?_range hi]

theorem placeWord_word (grid : Grid) (word : Word) (row col : Int) (d : Direction) :
    (placeWord grid word row col d).2.word = word := rfl

theorem placeWord_direction (grid : Grid) (word : Word) (row col : Int) (d : Direction) :
    (placeWord grid word row col d).2.direction = d := rfl

theorem placeWord_positions (grid : Grid) (word : Word) (row col : Int) (d : Direction) :
    (placeWord grid word row col d).2.positions =
      linePositions row col d.1 d.2 word.length := by
  unfold placeWord linePositions
  simp only
  rw [placeWordLoop_positions]
  simp

theorem placeWord_isGrid15 {grid : Grid} (hg : IsGrid15 grid) (word : Word) (row col : Int)
    (d : Direction) : IsGrid15 (placeWord grid word row col d).1 := by
  unfold placeWord
  exact placeWordLoop_isGrid15 _ _ _ _ _ _ _ _ hg

theorem canPlaceWord_accepts {grid : Grid} {word : Word} {row col : Int} {d : Direction}
    (hcan : canPlaceWord grid word row col d = true) (i : Nat) (hi : i < word.length) :
    CellAccepts grid row col d.1 d.2 i word[i] := by
  have := (canPlaceWordLoop_iff grid row col d.1 d.2 word 0).mp hcan i hi
  simpa using this

theorem placeWord_cellAt_on {grid : Grid} (hg : IsGrid15 grid) {word : Word} {row col : Int}
    {d : Direction} (hd : d.1 ≠ 0 ∨ d.2 ≠ 0)
    (hcan : canPlaceWord grid word row col d = true) (i : Nat) (hi : i < word.length) :
    cellAt (placeWord grid word row col d).1 (row + (i : Int) * d.1) (col + (i : Int) * d.2) =
      some (some word[i]) := by
  have h := placeWordLoop_cellAt_on row col d.1 d.2 hd word 0 grid [] hg
    (fun j hj => by
      have := (canPlaceWord_accepts hcan j hj).1
      simpa using this) i hi
  simpa [placeWord] using h

theorem placeWord_cellAt_cases (grid : Grid) (word : Word) (row col : Int) (d : Direction)
    (r c : Int) :
    cellAt (placeWord grid word row col d).1 r c = cellAt grid r c ∨
    ∃ ch ∈ word, cellAt (placeWord grid word row col d).1 r c = some (some ch) := by
  unfold placeWord
  exact placeWordLoop_cellAt_cases _ _ _ _ _ _ _ _ _ _

theorem placeWord_keeps_letters {grid : Grid} (hg : IsGrid15 grid) {word : Word}
    {row col : Int} {d : Direction} (hd : d.1 ≠ 0 ∨ d.2 ≠ 0)
    (hcan : canPlaceWord grid word row col d = true) (r c : Int) (x : Char)
    (hx : cellAt grid r c = some (some x)) :
    cellAt (placeWord grid word row col d).1 r c = some (some x) := by
  by_cases hon : ∃ i, i < word.length ∧ r = row + (i : Int) * d.1 ∧ c = col + (i : Int) * d.2
  · obtain ⟨i, hi, hr, hc⟩ := hon
    subst hr; subst hc
    rw [placeWord_cellAt_on hg hd hcan i hi]
    rcases (canPlaceWord_accepts hcan i hi).2 with h | h
    · rw [h] at hx; exact absurd hx (by simp)
    · rw [h] at hx; exact hx
  · have hoff : ∀ j, j < word.length →
        r ≠ row + ((0 + j : Nat) : Int) * d.1 ∨ c ≠ col + ((0 + j : Nat) : Int) * d.2 := by
      intro j hj
      by_contra hne
      apply hon
      refine ⟨j, hj, ?_, ?_⟩
      · by_contra h1; exact hne (Or.inl (by simpa using h1))
      · by_contra h1; exact hne (Or.inr (by simpa using h1))
    have := placeWordLoop_cellAt_off row col d.1 d.2 word 0 grid [] r c hoff
    unfold placeWord
    simp only
    rw [this]
    exact hx

theorem placementOnGrid_placeWord {grid : Grid} (hg : IsGrid15 grid) {word : Word}
    {row col : Int} {d : Direction} (hd : d ∈ DIRECTIONS)
    (hcan : canPlaceWord grid word row col d = true) :
    PlacementOnGrid (placeWord grid word row col d).1 (placeWord grid word row col d).2 := by
  refine ⟨hd, ⟨row, col, placeWord_positions grid word row col d⟩, ?_⟩
  intro i hi
  refine ⟨row + (i : Int) * d.1, col + (i : Int) * d.2, ?_, ?_, ?_⟩
  · rw [placeWord_positions]
    exact linePositions_getElem? _ _ _ _ _ _ hi
  · exact (canPlaceWord_accepts hcan i hi).1
  · exact placeWord_cellAt_on hg (direction_ne_zero d hd) hcan i hi

theorem PlacementOnGrid.mono {g g' : Grid} {p : Placement}
    (hkeep : ∀ (r c : Int) (x : Char), cellAt g r c = some (some x) → cellAt g' r c = some (some x))
    (hp : PlacementOnGrid g p) : PlacementOnGrid g' p := by
  obtain ⟨hd, hline, hcells⟩ := hp
  refine ⟨hd, hline, ?_⟩
  intro i hi
  obtain ⟨r, c, hpos, hb, hcell⟩ := hcells i hi
  exact ⟨r, c, hpos, hb, hkeep r c _ hcell⟩

/-! ## The placement loop keeps the placements on the grid -/

theorem placementLoop_eq (words selectedWords : List Word) (rnd : RandomSource) :
    placementLoop words selectedWords rnd =
      (wordsToPlace words selectedWords).foldl (wordStep rnd selectedWords) initState := rfl

theorem loopInv_init : LoopInv initState :=
  ⟨isGrid15_emptyGrid, fun p hp => absurd hp (List.not_mem_nil p)⟩

theorem loopInv_wordStep (rnd : RandomSource) (selectedWords : List Word) (st : GenState)
    (word : Word) (hinv : LoopInv st) : LoopInv (wordStep rnd selectedWords st word) := by
  obtain ⟨hg, hps⟩ := hinv
  rcases wordStep_spec rnd selectedWords st word with ⟨j, _, _, hat, heq⟩ | ⟨_, heq⟩
  · rw [heq]
    have hd := drawDirection_mem rnd (st.calls + 3 * j)
    have hcan : canPlaceWord st.grid word (drawIndex rnd (st.calls + 3 * j + 1))
        (drawIndex rnd (st.calls + 3 * j + 2)) (drawDirection rnd (st.calls + 3 * j)) = true := hat
    refine ⟨placeWord_isGrid15 hg _ _ _ _, ?_⟩
    intro p hp
    simp only [List.mem_append, List.mem_singleton] at hp
    rcases hp with hp | hp
    · exact (hps p hp).mono
        (fun r c x hx => placeWord_keeps_letters hg (direction_ne_zero _ hd) hcan r c x hx)
    · rw [hp]
      exact placementOnGrid_placeWord hg hd hcan
  · rw [heq]
    exact ⟨hg, hps⟩

theorem loopInv_foldl (rnd : RandomSource) (selectedWords : List Word) (ws : List Word)
    (st : GenState) (hinv : LoopInv st) :
    LoopInv (ws.foldl (wordStep rnd selectedWords) st) := by
  induction ws generalizing st with
  | nil => exact hinv
  | cons w ws ih => exact ih _ (loopInv_wordStep rnd selectedWords st w hinv)

theorem loopInv_placementLoop (words selectedWords : List Word) (rnd : RandomSource) :
    LoopInv (placementLoop words selectedWords rnd) :=
  loopInv_foldl rnd selectedWords _ _ loopInv_init

/-! ## The fill step -/

theorem fillCell_isGrid15 (rnd : RandomSource) (s : Grid × Nat) (ij : Nat × Nat)
    (hg : IsGrid15 s.1) : IsGrid15 (fillCell rnd s ij).1 := by
  unfold fillCell
  split
  · exact isGrid15_setCell hg (ij.1 : Int) (ij.2 : Int) _
  · exact hg

theorem fillCell_keeps_letters (rnd : RandomSource) (s : Grid × Nat) (ij : Nat × Nat)
    (r c : Int) (x : Char) (hx : cellAt s.1 r c = some (some x)) :
    cellAt (fillCell rnd s ij).1 r c = some (some x) := by
  unfold fillCell
  split
  · rename_i hempty
    by_cases hne : r ≠ (ij.1 : Int) ∨ c ≠ (ij.2 : Int)
    · simp only
      rw [cellAt_setCell_of_ne _ _ _ _ _ _ hne]
      exact hx
    · have hr : r = (ij.1 : Int) := by by_contra h; exact hne (Or.inl h)
      have hc : c = (ij.2 : Int) := by by_contra h; exact hne (Or.inr h)
      rw [hr, hc, hempty] at hx
      exact absurd hx (by simp)
  · exact hx

theorem fillCell_cases (rnd : RandomSource) (s : Grid × Nat) (ij : Nat × Nat) (r c : Int) :
    cellAt (fillCell rnd s ij).1 r c = cellAt s.1 r c ∨
    ∃ k, cellAt (fillCell rnd s ij).1 r c = some (some (randomLetter (rnd k))) := by
  unfold fillCell
  split
  · rcases cellAt_setCell_cases s.1 ij.1 ij.2 r c (some (randomLetter (rnd s.2))) with h | h
    · exact Or.inl h
    · exact Or.inr ⟨s.2, h⟩
  · exact Or.inl rfl

theorem fillCell_filled (rnd : RandomSource) (s : Grid × Nat) (ij : Nat × Nat)
    (hg : IsGrid15 s.1) (hb : InBounds ij.1 ij.2) :
    ∃ x, cellAt (fillCell rnd s ij).1 ij.1 ij.2 = some (some x) := by
  unfold fillCell
  split
  · exact ⟨_, cellAt_setCell_self hg _ _ hb _⟩
  · rename_i hne
    obtain ⟨v, hv⟩ := cellAt_defined hg _ _ hb
    cases v with
    | none => exact absurd hv hne
    | some x => exact ⟨x, hv⟩

theorem fill_foldl_isGrid15 (rnd : RandomSource) (cells : List (Nat × Nat)) (s : Grid × Nat)
    (hg : IsGrid15 s.1) : IsGrid15 (cells.foldl (fillCell rnd) s).1 := by
  induction cells generalizing s with
  | nil => exact hg
  | cons ij rest ih => exact ih _ (fillCell_isGrid15 rnd s ij hg)

theorem fill_foldl_keeps_letters (rnd : RandomSource) (cells : List (Nat × Nat))
    (s : Grid × Nat) (r c : Int) (x : Char) (hx : cellAt s.1 r c = some (some x)) :
    cellAt (cells.foldl (fillCell rnd) s).1 r c = some (some x) := by
  induction cells generalizing s with
  | nil => exact hx
  | cons ij rest ih => exact ih _ (fillCell_keeps_letters rnd s ij r c x hx)

theorem fill_foldl_cases (rnd : RandomSource) (cells : List (Nat × Nat)) (s : Grid × Nat)
    (r c : Int) :
    cellAt (cells.foldl (fillCell rnd) s).1 r c = cellAt s.1 r c ∨
    ∃ k, cellAt (cells.foldl (fillCell rnd) s).1 r c = some (some (randomLetter (rnd k))) := by
  induction cells generalizing s with
  | nil => exact Or.inl rfl
  | cons ij rest ih =>
    rcases ih (fillCell rnd s ij) with h | h
    · rcases fillCell_cases rnd s ij r c with h2 | ⟨k, h2⟩
      · exact Or.inl (h.trans h2)
      · exact Or.inr ⟨k, h.trans h2⟩
    · exact Or.inr h

theorem fill_foldl_filled (rnd : RandomSource) (cells : List (Nat × Nat)) (s : Grid × Nat)
    (hg : IsGrid15 s.1) (ij : Nat × Nat) (hmem : ij ∈ cells) (hb : InBounds ij.1 ij.2) :
    ∃ x, cellAt (cells.foldl (fillCell rnd) s).1 ij.1 ij.2 = some (some x) := by
  induction cells generalizing s with
  | nil => exact absurd hmem (List.not_mem_nil ij)
  | cons head rest ih =>
    rcases List.mem_cons.mp hmem with h | h
    · subst h
      obtain ⟨x, hx⟩ := fillCell_filled rnd s ij hg hb
      exact ⟨x, fill_foldl_keeps_letters rnd rest _ _ _ x hx⟩
    · exact ih _ (fillCell_isGrid15 rnd s head hg) h

theorem mem_fillOrder (i j : Nat) (hi : i < GRID_SIZE) (hj : j < GRID_SIZE) :
    (i, j) ∈ fillOrder := by
  unfold fillOrder
  rw [List.mem_flatMap]
  exact ⟨i, List.mem_range.mpr hi, List.mem_map.mpr ⟨j, List.mem_range.mpr hj, rfl⟩⟩

theorem fillEmpty_isGrid15 (rnd : RandomSource) (grid : Grid) (calls : Nat)
    (hg : IsGrid15 grid) : IsGrid15 (fillEmpty rnd grid calls).1 :=
  fill_foldl_isGrid15 rnd fillOrder (grid, calls) hg

theorem fillEmpty_keeps_letters (rnd : RandomSource) (grid : Grid) (calls : Nat)
    (r c : Int) (x : Char) (hx : cellAt grid r c = some (some x)) :
    cellAt (fillEmpty rnd grid calls).1 r c = some (some x) :=
  fill_foldl_keeps_letters rnd fillOrder (grid, calls) r c x hx

theorem fillEmpty_cases (rnd : RandomSource) (grid : Grid) (calls : Nat) (r c : Int) :
    cellAt (fillEmpty rnd grid calls).1 r c = cellAt grid r c ∨
    ∃ k, cellAt (fillEmpty rnd grid calls).1 r c = some (some (randomLetter (rnd k))) :=
  fill_foldl_cases rnd fillOrder (grid, calls) r c

theorem fillEmpty_filled (rnd : RandomSource) (grid : Grid) (calls : Nat)
    (hg : IsGrid15 grid) (r c : Int) (hb : InBounds r c) :
    ∃ x, cellAt (fillEmpty rnd grid calls).1 r c = some (some x) := by
  obtain ⟨hr0, hr1, hc0, hc1⟩ := hb
  have hr : ((r.toNat : Nat) : Int) = r := Int.toNat_of_nonneg hr0
  have hc : ((c.toNat : Nat) : Int) = c := Int.toNat_of_nonneg hc0
  have hmem : (r.toNat, c.toNat) ∈ fillOrder :=
    mem_fillOrder _ _ ((Int.toNat_lt hr0).mpr hr1) ((Int.toNat_lt hc0).mpr hc1)
  have := fill_foldl_filled rnd fillOrder (grid, calls) hg (r.toNat, c.toNat) hmem
    (by simp only [hr, hc]; exact ⟨hr0, hr1, hc0, hc1⟩)
  simpa only [hr, hc] using this

/-! ## Where each attempted word is recorded -/

theorem wordStep_lists (rnd : RandomSource) (selectedWords : List Word) (st : GenState)
    (word : Word) :
    (∃ p : Placement, p.word = word ∧
      (wordStep rnd selectedWords st word).placements = st.placements ++ [p] ∧
      (wordStep rnd selectedWords st word).unplacedWords = st.unplacedWords) ∨
    ((wordStep rnd selectedWords st word).placements = st.placements ∧
      (wordStep rnd selectedWords st word).unplacedWords = st.unplacedWords ++ [word]) := by
  rcases wordStep_spec rnd selectedWords st word with ⟨j, _, _, _, heq⟩ | ⟨_, heq⟩
  · left
    exact ⟨(placeAt rnd st.grid word (st.calls + 3 * j)).2, rfl, by rw [heq], by rw [heq]⟩
  · right
    exact ⟨by rw [heq], by rw [heq]⟩

theorem foldl_lists (rnd : RandomSource) (selectedWords : List Word) (ws : List Word)
    (st : GenState) :
    ∃ A B : List Word,
      (ws.foldl (wordStep rnd selectedWords) st).placements.map Placement.word =
        st.placements.map Placement.word ++ A ∧
      (ws.foldl (wordStep rnd selectedWords) st).unplacedWords = st.unplacedWords ++ B ∧
      A.Sublist ws ∧ B.Sublist ws ∧ (A ++ B).Perm ws := by
  induction ws generalizing st with
  | nil => exact ⟨[], [], by simp, by simp, List.Sublist.refl _, List.Sublist.refl _, List.Perm.refl _⟩
  | cons w ws ih =>
    obtain ⟨A, B, hA, hB, hsA, hsB, hperm⟩ := ih (wordStep rnd selectedWords st w)
    rcases wordStep_lists rnd selectedWords st w with ⟨p, hpw, hpl, hun⟩ | ⟨hpl, hun⟩
    · refine ⟨w :: A, B, ?_, ?_, hsA.cons₂ w, hsB.cons w, ?_⟩
      · rw [List.foldl_cons, hA, hpl]
        simp [hpw]
      · rw [List.foldl_cons, hB, hun]
      · exact List.Perm.cons w hperm
    · refine ⟨A, w :: B, ?_, ?_, hsA.cons w, hsB.cons₂ w, ?_⟩
      · rw [List.foldl_cons, hA, hpl]
      · rw [List.foldl_cons, hB, hun]
        simp
      · exact List.perm_middle.trans (List.Perm.cons w hperm)

theorem placementLoop_lists (words selectedWords : List Word) (rnd : RandomSource) :
    ((placementLoop words selectedWords rnd).placements.map Placement.word).Sublist
        (wordsToPlace words selectedWords) ∧
    (placementLoop words selectedWords rnd).unplacedWords.Sublist
        (wordsToPlace words selectedWords) ∧
    ((placementLoop words selectedWords rnd).placements.map Placement.word ++
      (placementLoop words selectedWords rnd).unplacedWords).Perm
        (wordsToPlace words selectedWords) := by
  obtain ⟨A, B, hA, hB, hsA, hsB, hperm⟩ :=
    foldl_lists rnd selectedWords (wordsToPlace words selectedWords) initState
  rw [placementLoop_eq, hA, hB]
  simpa [initState] using ⟨hsA, hsB, hperm⟩

/-! ## The attempt order -/

theorem sortByLength_perm (ws : List Word) : (sortByLength ws).Perm ws :=
  List.perm_insertionSort LongerFirst ws

theorem sortByLength_sorted (ws : List Word) : List.Sorted LongerFirst (sortByLength ws) :=
  List.sorted_insertionSort LongerFirst ws

theorem mem_otherWords {words selectedWords : List Word} {w : Word} :
    w ∈ otherWords words selectedWords ↔ w ∈ words ∧ w ∉ selectedWords := by
  simp [otherWords, List.mem_filter]

theorem limited_append_dropped (words selectedWords : List Word) :
    limitedOtherWords words selectedWords ++ droppedOtherWords words selectedWords =
      sortByLength (otherWords words selectedWords) :=
  List.take_append_drop 20 _

theorem mem_limitedOtherWords {words selectedWords : List Word} {w : Word}
    (h : w ∈ limitedOtherWords words selectedWords) : w ∈ words ∧ w ∉ selectedWords :=
  mem_otherWords.mp ((sortByLength_perm _).subset ((List.take_sublist 20 _).subset h))

theorem mem_droppedOtherWords {words selectedWords : List Word} {w : Word}
    (h : w ∈ droppedOtherWords words selectedWords) : w ∈ words ∧ w ∉ selectedWords :=
  mem_otherWords.mp ((sortByLength_perm _).subset ((List.drop_sublist 20 _).subset h))

theorem limited_longer_than_dropped (words selectedWords : List Word) :
    ∀ a ∈ limitedOtherWords words selectedWords,
      ∀ b ∈ droppedOtherWords words selectedWords, b.length ≤ a.length := by
  have hs := sortByLength_sorted (otherWords words selectedWords)
  rw [← limited_append_dropped] at hs
  exact (List.pairwise_append.mp hs).2.2

theorem wordsToPlace_nodup {words selectedWords : List Word} (hw : words.Nodup)
    (hs : selectedWords.Nodup) : (wordsToPlace words selectedWords).Nodup := by
  unfold wordsToPlace
  rw [List.nodup_append]
  refine ⟨(sortByLength_perm _).nodup_iff.mpr hs, ?_, ?_⟩
  · exact (List.take_sublist 20 _).nodup
      ((sortByLength_perm _).nodup_iff.mpr (hw.filter _))
  · intro w h1 h2
    exact (mem_limitedOtherWords h2).2 ((sortByLength_perm _).subset h1)

theorem dropped_not_attempted {words selectedWords : List Word} (hw : words.Nodup)
    {w : Word} (h : w ∈ droppedOtherWords words selectedWords) :
    w ∉ wordsToPlace words selectedWords := by
  intro hmem
  unfold wordsToPlace at hmem
  rcases List.mem_append.mp hmem with h1 | h1
  · exact (mem_droppedOtherWords h).2 ((sortByLength_perm _).subset h1)
  · have hnd : (sortByLength (otherWords words selectedWords)).Nodup :=
      (sortByLength_perm _).nodup_iff.mpr (hw.filter _)
    exact List.disjoint_take_drop hnd (Nat.le_refl 20) h1 h

/-! ## Results about canPlaceWord and placeWord -/

/-- C1: on a grid of 15 rows of 15 cells, `canPlaceWord(grid, word, row, col,
[dRow, dCol])` returns true if and only if, for every index `i` of the word, the
cell `(row + i*dRow, col + i*dCol)` has both coordinates in `[0, 15)` and the
grid cell there is empty or already equal to `word[i]`. A violation at an index
`i` makes the result false whatever letters follow that index: the loop returns
at the first violation. -/
theorem canPlaceWord_true_iff (grid : Grid) (_hgrid : IsGrid15 grid) (word : Word)
    (row col dRow dCol : Int) :
    (canPlaceWord grid word row col (dRow, dCol) = true ↔
      ∀ (i : Nat) (hi : i < word.length),
        InBounds (row + i * dRow) (col + i * dCol) ∧
        (cellAt grid (row + i * dRow) (col + i * dCol) = some none ∨
         cellAt grid (row + i * dRow) (col + i * dCol) = some (some word[i]))) ∧
    (∀ (i : Nat) (hi : i < word.length),
      ¬ (InBounds (row + i * dRow) (col + i * dCol) ∧
        (cellAt grid (row + i * dRow) (col + i * dCol) = some none ∨
         cellAt grid (row + i * dRow) (col + i * dCol) = some (some word[i]))) →
      ∀ rest : Word,
        canPlaceWord grid (word.take (i + 1) ++ rest) row col (dRow, dCol) = false) := by
  have hiff : ∀ w : Word, canPlaceWord grid w row col (dRow, dCol) = true ↔
      ∀ (i : Nat) (hi : i < w.length), CellAccepts grid row col dRow dCol i w[i] := by
    intro w
    unfold canPlaceWord
    rw [canPlaceWordLoop_iff]
    simp
  refine ⟨hiff word, ?_⟩
  intro i hi hbad rest
  cases hres : canPlaceWord grid (word.take (i + 1) ++ rest) row col (dRow, dCol) with
  | false => rfl
  | true =>
    exfalso
    apply hbad
    have hlen : i < (word.take (i + 1)).length := by
      rw [List.length_take]; omega
    have hi' : i < (word.take (i + 1) ++ rest).length := by
      rw [List.length_append]; omega
    have hacc := (hiff _).mp hres i hi'
    have hget : (word.take (i + 1) ++ rest)[i] = word[i] := by
      rw [List.getElem_append_left hlen, List.getElem_take]
    rw [hget] at hacc
    exact hacc

/-- C1 at a concrete input: the empty grid, the word CAT from the top left
corner heading right. -/
theorem canPlaceWord_true_iff_witness :
    IsGrid15 emptyGrid ∧
    canPlaceWord emptyGrid ['C', 'A', 'T'] 0 0 (0, 1) = true ∧
    canPlaceWord emptyGrid (['C', 'A', 'T'].take (2 + 1) ++ []) 11 13 (0, 1) = false :=
  ⟨isGrid15_emptyGrid,
   (canPlaceWord_true_iff emptyGrid isGrid15_emptyGrid ['C', 'A', 'T'] 0 0 0 1).1.mpr
     (by decide),
   (canPlaceWord_true_iff emptyGrid isGrid15_emptyGrid ['C', 'A', 'T'] 11 13 0 1).2
     2 (by decide) (by decide) []⟩

/-! ## Results about the placements of a run -/

theorem generate_placements (words selectedWords : List Word) (rnd : RandomSource) :
    (generateWordSearch words selectedWords rnd).placements =
      (placementLoop words selectedWords rnd).placements := rfl

theorem generate_unplacedWords (words selectedWords : List Word) (rnd : RandomSource) :
    (generateWordSearch words selectedWords rnd).unplacedWords =
      (placementLoop words selectedWords rnd).unplacedWords := rfl

theorem generate_grid (words selectedWords : List Word) (rnd : RandomSource) :
    (generateWordSearch words selectedWords rnd).grid =
      (fillEmpty rnd (placementLoop words selectedWords rnd).grid
        (placementLoop words selectedWords rnd).calls).1 := by
  simp only [generateWordSearch]

theorem generate_placementOnGrid (words selectedWords : List Word) (rnd : RandomSource)
    (p : Placement) (hp : p ∈ (generateWordSearch words selectedWords rnd).placements) :
    PlacementOnGrid (generateWordSearch words selectedWords rnd).grid p := by
  rw [generate_placements] at hp
  rw [generate_grid]
  exact ((loopInv_placementLoop words selectedWords rnd).2 p hp).mono
    (fun r c x hx => fillEmpty_keeps_letters rnd _ _ r c x hx)

/-- C2: for every word list, priority set and random source, every placement
recorded by `generateWordSearch` has as many coordinates as its word has
letters, all of them inside `[0,15) x [0,15)`, and the final grid (after all
later placements and after the fill step) read at the i-th coordinate holds the
i-th letter of the placement's word. -/
theorem placements_spelled_on_final_grid (words selectedWords : List Word)
    (rnd : RandomSource) :
    ∀ p ∈ (generateWordSearch words selectedWords rnd).placements,
      p.positions.length = p.word.length ∧
      (∀ rc ∈ p.positions, InBounds rc.1 rc.2) ∧
      ∀ (i : Nat) (hi : i < p.word.length), ∃ r c : Int,
        p.positions[i]? = some (r, c) ∧
        cellAt (generateWordSearch words selectedWords rnd).grid r c =
          some (some p.word[i]) := by
  intro p hp
  obtain ⟨_, ⟨row, col, hline⟩, hcells⟩ := generate_placementOnGrid words selectedWords rnd p hp
  have hlen : p.positions.length = p.word.length := by
    rw [hline, linePositions_length]
  refine ⟨hlen, ?_, ?_⟩
  · intro rc hrc
    obtain ⟨i, hi, hget⟩ := List.getElem_of_mem hrc
    obtain ⟨r, c, hpos, hb, _⟩ := hcells i (hlen ▸ hi)
    rw [List.getElem?_eq_getElem hi, hget] at hpos
    cases hpos
    exact hb
  · intro i hi
    obtain ⟨r, c, hpos, _, hcell⟩ := hcells i hi
    exact ⟨r, c, hpos, hcell⟩

/-- C2 at a concrete run: the word CAT alone, every draw of the random source
being 0, is placed from the top left corner heading right. -/
theorem placements_spelled_on_final_grid_witness :
    ({ word := ['C', 'A', 'T'], positions := [(0, 0), (0, 1), (0, 2)], direction := (0, 1) } :
        Placement) ∈ (generateWordSearch [['C', 'A', 'T']] [] zeroSource).placements ∧
    cellAt (generateWordSearch [['C', 'A', 'T']] [] zeroSource).grid 0 2 = some (some 'T') := by
  have hmem :
      ({ word := ['C', 'A', 'T'], positions := [(0, 0), (0, 1), (0, 2)], direction := (0, 1) } :
        Placement) ∈ (generateWordSearch [['C', 'A', 'T']] [] zeroSource).placements := by
    decide
  refine ⟨hmem, ?_⟩
  obtain ⟨r, c, hpos, hcell⟩ :=
    (placements_spelled_on_final_grid [['C', 'A', 'T']] [] zeroSource _ hmem).2.2 2 (by decide)
  have hrc : (r, c) = ((0 : Int), (2 : Int)) := by
    have : ([((0 : Int), (0 : Int)), (0, 1), (0, 2)] : List (Int × Int))[2]? = some (r, c) := hpos
    simpa using this.symm
  cases hrc
  exact hcell

/-- C3, the run that breaks it: for the words CAT and COT, no priority word
and a random source whose calls return 0, 0, 0, 0.25, 0, 0, ...,
`generateWordSearch` records two placements: CAT from the top left corner
heading right and COT from the same corner heading down. The cell (0,0) belongs
to the coordinate lists of both, and it held the letter C, not the empty
string, when COT was placed on it. -/
theorem placements_overlap_example :
    (generateWordSearch [['C', 'A', 'T'], ['C', 'O', 'T']] [] crossingSource).placements =
      [{ word := ['C', 'A', 'T'], positions := [(0, 0), (0, 1), (0, 2)], direction := (0, 1) },
       { word := ['C', 'O', 'T'], positions := [(0, 0), (1, 0), (2, 0)], direction := (1, 0) }] ∧
    cellAt (placeWord emptyGrid ['C', 'A', 'T'] 0 0 (0, 1)).1 0 0 = some (some 'C') ∧
    canPlaceWord (placeWord emptyGrid ['C', 'A', 'T'] 0 0 (0, 1)).1 ['C', 'O', 'T'] 0 0 (1, 0) =
      true := by
  decide

/-- C8: on a grid of 15 rows of 15 cells, when every cell
`(row + i*dRow, col + i*dCol)` for `i < word.length` is inside the grid (the
contract of `placeWord`: it is called after `canPlaceWord` returned true, which
gives exactly this), `placeWord(grid, word, row, col, direction)` returns a
record holding that word and that direction whose positions list has
`word.length` entries, the i-th being `(row + i*dRow, col + i*dCol)`, and, the
direction not being `(0,0)`, the grid it leaves holds `word[i]` at the i-th of
them. Every placement recorded by `generateWordSearch` has for direction one of
`DIRECTIONS`, and its positions are a straight line of `word.length` cells in
which each cell is the previous one moved by that direction. `DIRECTIONS` has 8
distinct entries: the pairs of -1, 0, 1 other than `(0,0)`. -/
theorem placeWord_record_and_straight_lines :
    (∀ (grid : Grid) (word : Word) (row col : Int) (direction : Direction),
      IsGrid15 grid →
      (∀ i, i < word.length →
        InBounds (row + (i : Int) * direction.1) (col + (i : Int) * direction.2)) →
      (placeWord grid word row col direction).2.word = word ∧
      (placeWord grid word row col direction).2.direction = direction ∧
      (placeWord grid word row col direction).2.positions.length = word.length ∧
      (∀ i, i < word.length →
        (placeWord grid word row col direction).2.positions[i]? =
          some (row + (i : Int) * direction.1, col + (i : Int) * direction.2)) ∧
      ((direction.1 ≠ 0 ∨ direction.2 ≠ 0) →
        ∀ (i : Nat) (hi : i < word.length),
          cellAt (placeWord grid word row col direction).1
            (row + (i : Int) * direction.1) (col + (i : Int) * direction.2) =
            some (some word[i]))) ∧
    (∀ (grid : Grid) (word : Word) (row col : Int) (direction : Direction),
      canPlaceWord grid word row col direction = true →
      ∀ i, i < word.length →
        InBounds (row + (i : Int) * direction.1) (col + (i : Int) * direction.2)) ∧
    (∀ (words selectedWords : List Word) (rnd : RandomSource),
      ∀ p ∈ (generateWordSearch words selectedWords rnd).placements,
        p.direction ∈ DIRECTIONS ∧
        p.positions.length = p.word.length ∧
        (∃ row col : Int, ∀ i, i < p.word.length →
          p.positions[i]? = some (row + (i : Int) * p.direction.1, col + (i : Int) * p.direction.2)) ∧
        (∀ (i : Nat) (a b : Int × Int), p.positions[i]? = some a → p.positions[i + 1]? = some b →
          b = (a.1 + p.direction.1, a.2 + p.direction.2))) ∧
    (DIRECTIONS.length = 8 ∧ DIRECTIONS.Nodup ∧
      ∀ d : Direction, d ∈ DIRECTIONS ↔
        ((d.1 = -1 ∨ d.1 = 0 ∨ d.1 = 1) ∧ (d.2 = -1 ∨ d.2 = 0 ∨ d.2 = 1) ∧ d ≠ (0, 0))) := by
  refine ⟨?_, ?_, ?_, ?_⟩
  · intro grid word row col direction hg hb
    refine ⟨rfl, rfl, ?_, ?_, ?_⟩
    · rw [placeWord_positions, linePositions_length]
    · intro i hi
      rw [placeWord_positions]
      exact linePositions_getElem? _ _ _ _ _ _ hi
    · intro hd i hi
      have h := placeWordLoop_cellAt_on row col direction.1 direction.2 hd word 0 grid [] hg
        (fun j hj => by simpa using hb j hj) i hi
      simpa [placeWord] using h
  · intro grid word row col direction hcan i hi
    exact (canPlaceWord_accepts hcan i hi).1
  · intro words selectedWords rnd p hp
    obtain ⟨hd, ⟨row, col, hline⟩, _⟩ := generate_placementOnGrid words selectedWords rnd p hp
    refine ⟨hd, by rw [hline, linePositions_length], ⟨row, col, ?_⟩, ?_⟩
    · intro i hi
      rw [hline]
      exact linePositions_getElem? _ _ _ _ _ _ hi
    · intro i a b ha hb
      have hi1 : i + 1 < p.word.length := by
        have := (List.getElem?_eq_some.mp hb).1
        rwa [hline, linePositions_length] at this
      rw [hline, linePositions_getElem? _ _ _ _ _ _ (Nat.lt_of_succ_lt hi1)] at ha
      rw [hline, linePositions_getElem? _ _ _ _ _ _ hi1] at hb
      cases ha
      cases hb
      simp only [Prod.mk.injEq]
      constructor <;> push_cast <;> ring
  · refine ⟨rfl, by decide, ?_⟩
    intro d
    obtain ⟨a, b⟩ := d
    constructor
    · intro h
      have hall : ∀ e ∈ DIRECTIONS,
          (e.1 = -1 ∨ e.1 = 0 ∨ e.1 = 1) ∧ (e.2 = -1 ∨ e.2 = 0 ∨ e.2 = 1) ∧ e ≠ (0, 0) := by
        decide
      exact hall (a, b) h
    · rintro ⟨ha, hb, hne⟩
      rcases ha with ha | ha | ha <;> rcases hb with hb | hb | hb <;> subst ha <;> subst hb
      all_goals first
        | exact absurd rfl hne
        | decide

/-- C8 at the empty grid and the word CAT placed from `(3, 4)` heading
down-right: the cells are inside the grid, the record lists them and the grid
holds T at the last one. -/
theorem placeWord_record_and_straight_lines_witness :
    IsGrid15 emptyGrid ∧
    (∀ i, i < ['C', 'A', 'T'].length →
      InBounds ((3 : Int) + (i : Int) * (1 : Int)) ((4 : Int) + (i : Int) * (1 : Int))) ∧
    (placeWord emptyGrid ['C', 'A', 'T'] 3 4 (1, 1)).2.positions.length = 3 ∧
    cellAt (placeWord emptyGrid ['C', 'A', 'T'] 3 4 (1, 1)).1
      ((3 : Int) + ((2 : Nat) : Int) * (1 : Int)) ((4 : Int) + ((2 : Nat) : Int) * (1 : Int)) =
      some (some 'T') :=
  ⟨isGrid15_emptyGrid, by decide,
   (placeWord_record_and_straight_lines.1 emptyGrid ['C', 'A', 'T'] 3 4 (1, 1)
     isGrid15_emptyGrid (by decide)).2.2.1,
   (placeWord_record_and_straight_lines.1 emptyGrid ['C', 'A', 'T'] 3 4 (1, 1)
     isGrid15_emptyGrid (by decide)).2.2.2.2 (by decide) 2 (by decide)⟩

/-! ## The retry budget -/

theorem placementLoop_split (words selectedWords : List Word) (rnd : RandomSource)
    (pre post : List Word) (word : Word)
    (hsplit : wordsToPlace words selectedWords = pre ++ word :: post) :
    placementLoop words selectedWords rnd =
      post.foldl (wordStep rnd selectedWords)
        (wordStep rnd selectedWords (pre.foldl (wordStep rnd selectedWords) initState) word) := by
  rw [placementLoop_eq, hsplit, List.foldl_append, List.foldl_cons]

/-- C9: with the random source an explicit sequence of draws, the placement
loop runs the loop body on each word to place, in the state left by the words
before it. In that body the word has a budget of 500 attempts if it is in the
priority set and 100 otherwise; attempt `j` uses the three draws that start at
call `calls + 3*j`. Either some attempt `j` of the budget is the first to pass
`canPlaceWord` on the current grid: then the word is placed with the draws of
that attempt, its placement is pushed, the unplaced list is left alone and no
further draw is made (`3*(j+1)` calls were made); or every attempt of the
budget fails: then grid and placements are left alone and the word is pushed on
the unplaced list. The word is pushed on the unplaced list if and only if all
attempts of its budget fail. -/
theorem retry_budget_first_success :
    (∀ (words selectedWords : List Word) (rnd : RandomSource) (pre post : List Word)
        (word : Word), wordsToPlace words selectedWords = pre ++ word :: post →
      placementLoop words selectedWords rnd =
        post.foldl (wordStep rnd selectedWords)
          (wordStep rnd selectedWords
            (pre.foldl (wordStep rnd selectedWords) initState) word)) ∧
    (∀ (rnd : RandomSource) (selectedWords : List Word) (st : GenState) (word : Word),
      attemptsFor selectedWords word = (if word ∈ selectedWords then 500 else 100) ∧
      ((∃ j, j < attemptsFor selectedWords word ∧
          (∀ j', j' < j → attemptPasses rnd st.grid word (st.calls + 3 * j') = false) ∧
          attemptPasses rnd st.grid word (st.calls + 3 * j) = true ∧
          wordStep rnd selectedWords st word =
            { grid := (placeAt rnd st.grid word (st.calls + 3 * j)).1,
              placements := st.placements ++ [(placeAt rnd st.grid word (st.calls + 3 * j)).2],
              unplacedWords := st.unplacedWords,
              calls := st.calls + 3 * (j + 1) }) ∨
        ((∀ j, j < attemptsFor selectedWords word →
            attemptPasses rnd st.grid word (st.calls + 3 * j) = false) ∧
          wordStep rnd selectedWords st word =
            { grid := st.grid, placements := st.placements,
              unplacedWords := st.unplacedWords ++ [word],
              calls := st.calls + 3 * attemptsFor selectedWords word })) ∧
      ((wordStep rnd selectedWords st word).unplacedWords = st.unplacedWords ++ [word] ↔
        ∀ j, j < attemptsFor selectedWords word →
          attemptPasses rnd st.grid word (st.calls + 3 * j) = false)) := by
  refine ⟨placementLoop_split, ?_⟩
  intro rnd selectedWords st word
  refine ⟨rfl, wordStep_spec rnd selectedWords st word, ?_⟩
  rcases wordStep_spec rnd selectedWords st word with ⟨j, hj, _, hat, heq⟩ | ⟨hall, heq⟩
  · rw [heq]
    constructor
    · intro h
      have hlen := congrArg List.length h
      simp at hlen
    · intro hall
      rw [hall j hj] at hat
      exact absurd hat (by simp)
  · rw [heq]
    exact ⟨fun _ => hall, fun _ => rfl⟩

/-! ## Words longer than the grid -/

theorem canPlaceWord_long_false (grid : Grid) (word : Word) (hlen : GRID_SIZE < word.length)
    (row col : Int) (d : Direction) (hd : d ∈ DIRECTIONS) :
    canPlaceWord grid word row col d = false := by
  cases hres : canPlaceWord grid word row col d with
  | false => rfl
  | true =>
    exfalso
    have h0 := (canPlaceWord_accepts hres 0 (Nat.lt_trans (by decide) hlen)).1
    have h15 := (canPlaceWord_accepts hres 15 hlen).1
    have hne := direction_ne_zero d hd
    simp only [InBounds, GRID_SIZE, Nat.cast_ofNat, Nat.cast_zero] at h0 h15
    omega

theorem wordStep_long (rnd : RandomSource) (selectedWords : List Word) (st : GenState)
    (word : Word) (hlen : GRID_SIZE < word.length) :
    wordStep rnd selectedWords st word =
      { grid := st.grid, placements := st.placements,
        unplacedWords := st.unplacedWords ++ [word],
        calls := st.calls + 3 * attemptsFor selectedWords word } := by
  rcases wordStep_spec rnd selectedWords st word with ⟨j, _, _, hat, _⟩ | ⟨_, heq⟩
  · have : attemptPasses rnd st.grid word (st.calls + 3 * j) = false :=
      canPlaceWord_long_false _ _ hlen _ _ _ (drawDirection_mem rnd _)
    rw [this] at hat
    exact absurd hat (by simp)
  · exact heq

theorem foldl_unplaced_mem (rnd : RandomSource) (selectedWords : List Word) (ws : List Word)
    (st : GenState) (w : Word) (hw : w ∈ st.unplacedWords) :
    w ∈ (ws.foldl (wordStep rnd selectedWords) st).unplacedWords := by
  obtain ⟨_, B, _, hB, _⟩ := foldl_lists rnd selectedWords ws st
  rw [hB]
  exact List.mem_append_left B hw

theorem foldl_long_unplaced (rnd : RandomSource) (selectedWords : List Word) (ws : List Word)
    (st : GenState) (w : Word) (hw : w ∈ ws) (hlen : GRID_SIZE < w.length) :
    w ∈ (ws.foldl (wordStep rnd selectedWords) st).unplacedWords := by
  induction ws generalizing st with
  | nil => exact absurd hw (List.not_mem_nil w)
  | cons head rest ih =>
    rw [List.foldl_cons]
    rcases List.mem_cons.mp hw with h | h
    · subst h
      apply foldl_unplaced_mem
      rw [wordStep_long rnd selectedWords st w hlen]
      simp
    · exact ih _ h

/-! ## The letters on the grid -/

theorem cellAt_emptyGrid (r c : Int) (x : Char) : cellAt emptyGrid r c ≠ some (some x) := by
  unfold cellAt emptyGrid
  split
  · rw [List.getElem?_replicate]
    by_cases hr : r.toNat < GRID_SIZE
    · rw [if_pos hr]
      simp only
      rw [List.getElem?_replicate]
      split <;> simp
    · rw [if_neg hr]
      simp
  · simp

theorem isUpperLetter_randomLetter (x : Rand) : IsUpperLetter (randomLetter x) := by
  have hk : x.floorMul 26 < 26 := Rand.floorMul_lt x 26 (by decide)
  unfold randomLetter
  generalize x.floorMul 26 = k at hk
  interval_cases k <;> decide

theorem mem_wordsToPlace {words selectedWords : List Word} {w : Word}
    (h : w ∈ wordsToPlace words selectedWords) : w ∈ selectedWords ∨ w ∈ words := by
  unfold wordsToPlace at h
  rcases List.mem_append.mp h with h1 | h1
  · exact Or.inl ((sortByLength_perm _).subset h1)
  · exact Or.inr (mem_limitedOtherWords h1).1

theorem wordStep_letters (rnd : RandomSource) (selectedWords : List Word) (st : GenState)
    (word : Word) (P : Char → Prop) (hword : ∀ ch ∈ word, P ch)
    (hst : ∀ (r c : Int) (x : Char), cellAt st.grid r c = some (some x) → P x) :
    ∀ (r c : Int) (x : Char),
      cellAt (wordStep rnd selectedWords st word).grid r c = some (some x) → P x := by
  intro r c x hx
  rcases wordStep_spec rnd selectedWords st word with ⟨j, _, _, _, heq⟩ | ⟨_, heq⟩
  · rw [heq] at hx
    simp only [placeAt] at hx
    rcases placeWord_cellAt_cases st.grid word (drawIndex rnd (st.calls + 3 * j + 1))
      (drawIndex rnd (st.calls + 3 * j + 2)) (drawDirection rnd (st.calls + 3 * j)) r c
      with h | ⟨ch, hch, h⟩
    · rw [h] at hx
      exact hst r c x hx
    · rw [h] at hx
      cases hx
      exact hword x hch
  · rw [heq] at hx
    exact hst r c x hx

theorem foldl_letters (rnd : RandomSource) (selectedWords : List Word) (ws : List Word)
    (st : GenState) (P : Char → Prop) (hws : ∀ w ∈ ws, ∀ ch ∈ w, P ch)
    (hst : ∀ (r c : Int) (x : Char), cellAt st.grid r c = some (some x) → P x) :
    ∀ (r c : Int) (x : Char),
      cellAt (ws.foldl (wordStep rnd selectedWords) st).grid r c = some (some x) → P x := by
  induction ws generalizing st with
  | nil => exact hst
  | cons w rest ih =>
    rw [List.foldl_cons]
    exact ih _ (fun v hv => hws v (List.mem_cons_of_mem w hv))
      (wordStep_letters rnd selectedWords st w P (hws w (List.mem_cons_self w rest)) hst)

theorem generate_isGrid15 (words selectedWords : List Word) (rnd : RandomSource) :
    IsGrid15 (generateWordSearch words selectedWords rnd).grid := by
  rw [generate_grid]
  exact fillEmpty_isGrid15 rnd _ _ (loopInv_placementLoop words selectedWords rnd).1

theorem generate_filled (words selectedWords : List Word) (rnd : RandomSource) (r c : Int)
    (hb : InBounds r c) :
    ∃ x, cellAt (generateWordSearch words selectedWords rnd).grid r c = some (some x) := by
  rw [generate_grid]
  exact fillEmpty_filled rnd _ _ (loopInv_placementLoop words selectedWords rnd).1 r c hb

theorem cellAt_of_mem {grid : Grid} (hg : IsGrid15 grid) (cells : List Cell)
    (hcells : cells ∈ grid) (cell : Cell) (hcell : cell ∈ cells) :
    ∃ r c : Int, InBounds r c ∧ cellAt grid r c = some cell := by
  obtain ⟨i, hi, hgi⟩ := List.getElem_of_mem hcells
  obtain ⟨j, hj, hgj⟩ := List.getElem_of_mem hcell
  have hi15 : i < GRID_SIZE := hg.1 ▸ hi
  have hj15 : j < GRID_SIZE := hg.2 cells hcells ▸ hj
  refine ⟨(i : Int), (j : Int), ⟨by omega, by omega, by omega, by omega⟩, ?_⟩
  unfold cellAt
  rw [if_pos ⟨by omega, by omega⟩]
  simp only [Int.toNat_ofNat]
  rw [List.getElem?_eq_getElem hi, hgi]
  simp only
  rw [List.getElem?_eq_getElem hj, hgj]

/-! ## Results about a whole run -/

/-- C4, the run that breaks it: the words to place are the single 16-letter
word INTERNATIONALISM, every draw of the random source is 0. The run is not
refused: the result has a grid (15 rows), so it is not the case that it has no
grid and no placements, and the placement loop ran, since it recorded the word
as unplaced. -/
theorem long_word_not_refused_example :
    GRID_SIZE < longWord.length ∧
    longWord ∈ wordsToPlace [longWord] [] ∧
    ¬ ((generateWordSearch [longWord] [] zeroSource).grid = [] ∧
       (generateWordSearch [longWord] [] zeroSource).placements = []) ∧
    (generateWordSearch [longWord] [] zeroSource).grid.length = 15 ∧
    (generateWordSearch [longWord] [] zeroSource).unplacedWords = [longWord] := by
  have hlen : (generateWordSearch [longWord] [] zeroSource).grid.length = 15 :=
    (generate_isGrid15 [longWord] [] zeroSource).1
  have hwords : wordsToPlace [longWord] [] = [longWord] := by decide
  have hun : (generateWordSearch [longWord] [] zeroSource).unplacedWords = [longWord] := by
    rw [generate_unplacedWords, placementLoop_eq, hwords, List.foldl_cons, List.foldl_nil,
      wordStep_long zeroSource [] initState longWord (by decide)]
    rfl
  refine ⟨by decide, by decide, ?_, hlen, hun⟩
  rintro ⟨hnil, _⟩
  rw [hnil] at hlen
  exact absurd hlen (by decide)

/-- C4 as amended: when the words to place contain a word longer than 15
letters, `generateWordSearch` does not refuse to run: it runs the placement
loop and the fill step and returns a result whose grid is 15 rows of 15 cells
with no cell left empty, in which every word to place is recorded in the
placements or in the unplaced list, the long word in the unplaced list. -/
theorem long_word_run_completes (words selectedWords : List Word) (rnd : RandomSource)
    (w : Word) (hw : w ∈ wordsToPlace words selectedWords) (hlen : GRID_SIZE < w.length) :
    (generateWordSearch words selectedWords rnd).grid.length = 15 ∧
    (∀ cells ∈ (generateWordSearch words selectedWords rnd).grid, cells.length = 15) ∧
    (∀ cells ∈ (generateWordSearch words selectedWords rnd).grid, ∀ cell ∈ cells,
      cell ≠ none) ∧
    ((generateWordSearch words selectedWords rnd).placements.map Placement.word ++
      (generateWordSearch words selectedWords rnd).unplacedWords).Perm
        (wordsToPlace words selectedWords) ∧
    w ∈ (generateWordSearch words selectedWords rnd).unplacedWords := by
  have hg := generate_isGrid15 words selectedWords rnd
  refine ⟨hg.1, hg.2, ?_, (placementLoop_lists words selectedWords rnd).2.2, ?_⟩
  · intro cells hcells cell hcell hnone
    obtain ⟨r, c, hb, hcellAt⟩ := cellAt_of_mem hg cells hcells cell hcell
    obtain ⟨x, hx⟩ := generate_filled words selectedWords rnd r c hb
    rw [hcellAt, hnone] at hx
    exact absurd hx (by simp)
  · rw [generate_unplacedWords, placementLoop_eq]
    exact foldl_long_unplaced rnd selectedWords _ _ w hw hlen

/-- C4 as amended, at the 16-letter word INTERNATIONALISM with every draw 0. -/
theorem long_word_run_completes_witness :
    longWord ∈ wordsToPlace [longWord] [] ∧ GRID_SIZE < longWord.length ∧
    longWord ∈ (generateWordSearch [longWord] [] zeroSource).unplacedWords :=
  ⟨by decide, by decide,
   (long_word_run_completes [longWord] [] zeroSource longWord (by decide) (by decide)).2.2.2.2⟩

/-- C5: if every input word (of the word list and of the priority set) is made
of the letters A-Z only, then after `generateWordSearch` the grid is 15 rows of
15 cells and every cell holds one letter A-Z: no cell is left empty, whatever
words were placed or left unplaced. (The random source returns values in
`[0,1)` by its type.) -/
theorem grid_full_of_uppercase_letters (words selectedWords : List Word) (rnd : RandomSource)
    (hwords : ∀ w ∈ words, ∀ ch ∈ w, IsUpperLetter ch)
    (hselected : ∀ w ∈ selectedWords, ∀ ch ∈ w, IsUpperLetter ch) :
    (generateWordSearch words selectedWords rnd).grid.length = 15 ∧
    (∀ cells ∈ (generateWordSearch words selectedWords rnd).grid, cells.length = 15) ∧
    (∀ cells ∈ (generateWordSearch words selectedWords rnd).grid, ∀ cell ∈ cells,
      ∃ ch : Char, cell = some ch ∧ IsUpperLetter ch) := by
  have hg := generate_isGrid15 words selectedWords rnd
  refine ⟨hg.1, hg.2, ?_⟩
  intro cells hcells cell hcell
  obtain ⟨r, c, hb, hcellAt⟩ := cellAt_of_mem hg cells hcells cell hcell
  obtain ⟨x, hx⟩ := generate_filled words selectedWords rnd r c hb
  have hcx : cell = some x := by
    rw [hcellAt] at hx
    exact Option.some.inj hx
  refine ⟨x, hcx, ?_⟩
  rw [generate_grid] at hx
  rcases fillEmpty_cases rnd (placementLoop words selectedWords rnd).grid
    (placementLoop words selectedWords rnd).calls r c with h | ⟨k, h⟩
  · rw [h] at hx
    refine foldl_letters rnd selectedWords (wordsToPlace words selectedWords) initState
      IsUpperLetter ?_ ?_ r c x hx
    · intro v hv
      rcases mem_wordsToPlace hv with h1 | h1
      · exact hselected v h1
      · exact hwords v h1
    · intro r' c' x' hx'
      exact absurd hx' (cellAt_emptyGrid r' c' x')
  · rw [h] at hx
    cases hx
    exact isUpperLetter_randomLetter (rnd k)

/-- C5 at the words CAT and DOG with CAT a priority word, every draw 0. -/
theorem grid_full_of_uppercase_letters_witness :
    (∀ w ∈ [['C', 'A', 'T'], ['D', 'O', 'G']], ∀ ch ∈ w, IsUpperLetter ch) ∧
    (∀ w ∈ [['C', 'A', 'T']], ∀ ch ∈ w, IsUpperLetter ch) ∧
    (generateWordSearch [['C', 'A', 'T'], ['D', 'O', 'G']] [['C', 'A', 'T']]
      zeroSource).grid.length = 15 :=
  ⟨by decide, by decide,
   (grid_full_of_uppercase_letters [['C', 'A', 'T'], ['D', 'O', 'G']] [['C', 'A', 'T']]
      zeroSource (by decide) (by decide)).1⟩

/-! ## Which words are attempted, and in which order -/

theorem attempted_recorded (words selectedWords : List Word) (rnd : RandomSource) (w : Word) :
    w ∈ wordsToPlace words selectedWords ↔
      (w ∈ (generateWordSearch words selectedWords rnd).placements.map Placement.word ∨
       w ∈ (generateWordSearch words selectedWords rnd).unplacedWords) := by
  rw [← (placementLoop_lists words selectedWords rnd).2.2.mem_iff, List.mem_append]
  rfl

theorem otherWords_length {words selectedWords : List Word} (hw : words.Nodup)
    (hs : selectedWords.Nodup) (hsub : ∀ w ∈ selectedWords, w ∈ words) :
    (otherWords words selectedWords).length = words.length - selectedWords.length := by
  have hsplit := List.length_eq_length_filter_add (l := words)
    (fun word => decide (word ∈ selectedWords))
  have hperm : (words.filter (fun word => decide (word ∈ selectedWords))).Perm selectedWords := by
    rw [List.perm_ext_iff_of_nodup (hw.filter _) hs]
    intro a
    simp only [List.mem_filter, decide_eq_true_eq]
    exact ⟨fun h => h.2, fun h => ⟨hsub a h, h⟩⟩
  have hother : otherWords words selectedWords =
      words.filter (fun x => !decide (x ∈ selectedWords)) := by
    unfold otherWords
    congr 1
    funext x
    simp
  rw [hother]
  rw [hperm.length_eq] at hsplit
  omega

/-- C6: with n the number of non-priority words of the word list,
`generateWordSearch` keeps min(20, n) of them, and they are the longest: the
sorted non-priority words are the kept ones followed by the left out ones, and
every kept word is at least as long as every word left out. The words to place
are the sorted priority words followed by the kept ones, and each of them is
attempted (it ends in the placements or in the unplaced list); a word that is
not among them is in neither list, and in a duplicate-free word list that is so
for every word left out. Priority words are never truncated: the sorted
priority words are a permutation of the priority set and each is attempted. -/
theorem truncation_keeps_the_longest (words selectedWords : List Word) (rnd : RandomSource) :
    (limitedOtherWords words selectedWords).length =
      min 20 (otherWords words selectedWords).length ∧
    (limitedOtherWords words selectedWords ++ droppedOtherWords words selectedWords).Perm
      (otherWords words selectedWords) ∧
    (∀ a ∈ limitedOtherWords words selectedWords,
      ∀ b ∈ droppedOtherWords words selectedWords, b.length ≤ a.length) ∧
    wordsToPlace words selectedWords =
      sortByLength selectedWords ++ limitedOtherWords words selectedWords ∧
    (∀ w ∈ wordsToPlace words selectedWords,
      w ∈ (generateWordSearch words selectedWords rnd).placements.map Placement.word ∨
      w ∈ (generateWordSearch words selectedWords rnd).unplacedWords) ∧
    (∀ w, w ∉ wordsToPlace words selectedWords →
      w ∉ (generateWordSearch words selectedWords rnd).placements.map Placement.word ∧
      w ∉ (generateWordSearch words selectedWords rnd).unplacedWords) ∧
    (words.Nodup → ∀ b ∈ droppedOtherWords words selectedWords,
      b ∉ (generateWordSearch words selectedWords rnd).placements.map Placement.word ∧
      b ∉ (generateWordSearch words selectedWords rnd).unplacedWords) ∧
    (sortByLength selectedWords).Perm selectedWords ∧
    (∀ w ∈ selectedWords, w ∈ wordsToPlace words selectedWords ∧
      (w ∈ (generateWordSearch words selectedWords rnd).placements.map Placement.word ∨
       w ∈ (generateWordSearch words selectedWords rnd).unplacedWords)) := by
  have hnot : ∀ w, w ∉ wordsToPlace words selectedWords →
      w ∉ (generateWordSearch words selectedWords rnd).placements.map Placement.word ∧
      w ∉ (generateWordSearch words selectedWords rnd).unplacedWords := by
    intro w hw
    constructor
    · intro h
      exact hw ((attempted_recorded words selectedWords rnd w).mpr (Or.inl h))
    · intro h
      exact hw ((attempted_recorded words selectedWords rnd w).mpr (Or.inr h))
  refine ⟨?_, ?_, limited_longer_than_dropped words selectedWords, rfl, ?_, hnot, ?_,
    sortByLength_perm selectedWords, ?_⟩
  · unfold limitedOtherWords
    rw [List.length_take, (sortByLength_perm _).length_eq]
  · rw [limited_append_dropped]
    exact sortByLength_perm _
  · intro w hw
    exact (attempted_recorded words selectedWords rnd w).mp hw
  · intro hnd b hb
    exact hnot b (dropped_not_attempted hnd hb)
  · intro w hw
    have hmem : w ∈ wordsToPlace words selectedWords := by
      unfold wordsToPlace
      exact List.mem_append_left _ ((sortByLength_perm _).mem_iff.mpr hw)
    exact ⟨hmem, (attempted_recorded words selectedWords rnd w).mp hmem⟩

/-- C7: for a duplicate-free word list and a priority set that is a subset of
it, the words of the placements list and the unplaced list are disjoint, each
without a repeated word, and together they are exactly the words to place (a
word is attempted if and only if it is in one of the two lists, and the two
lists together are a permutation of the words to place), so their combined
count is the size of the priority set plus min(20, number of non-priority
words), the latter number being the size of the word list minus that of the
priority set. -/
theorem attempted_words_recorded_once (words selectedWords : List Word) (rnd : RandomSource)
    (hwords : words.Nodup) (hselected : selectedWords.Nodup)
    (hsub : ∀ w ∈ selectedWords, w ∈ words) :
    ((generateWordSearch words selectedWords rnd).placements.map Placement.word).Disjoint
      (generateWordSearch words selectedWords rnd).unplacedWords ∧
    ((generateWordSearch words selectedWords rnd).placements.map Placement.word).Nodup ∧
    (generateWordSearch words selectedWords rnd).unplacedWords.Nodup ∧
    (∀ w, w ∈ wordsToPlace words selectedWords ↔
      (w ∈ (generateWordSearch words selectedWords rnd).placements.map Placement.word ∨
       w ∈ (generateWordSearch words selectedWords rnd).unplacedWords)) ∧
    ((generateWordSearch words selectedWords rnd).placements.map Placement.word ++
      (generateWordSearch words selectedWords rnd).unplacedWords).Perm
        (wordsToPlace words selectedWords) ∧
    (generateWordSearch words selectedWords rnd).placements.length +
      (generateWordSearch words selectedWords rnd).unplacedWords.length =
        selectedWords.length + min 20 (otherWords words selectedWords).length ∧
    (otherWords words selectedWords).length = words.length - selectedWords.length := by
  have hperm : ((generateWordSearch words selectedWords rnd).placements.map Placement.word ++
      (generateWordSearch words selectedWords rnd).unplacedWords).Perm
        (wordsToPlace words selectedWords) := (placementLoop_lists words selectedWords rnd).2.2
  have hnd := hperm.nodup_iff.mpr (wordsToPlace_nodup hwords hselected)
  obtain ⟨hnd1, hnd2, hdisj⟩ := List.nodup_append.mp hnd
  refine ⟨hdisj, hnd1, hnd2, attempted_recorded words selectedWords rnd, hperm, ?_,
    otherWords_length hwords hselected hsub⟩
  have hlen := hperm.length_eq
  rw [List.length_append, List.length_map] at hlen
  rw [hlen]
  unfold wordsToPlace limitedOtherWords
  rw [List.length_append, List.length_take, (sortByLength_perm _).length_eq,
    (sortByLength_perm _).length_eq]

/-- C7 at the words CAT and DOG with priority set CAT: whatever the random
source, the placements and the unplaced list hold 2 entries together. -/
theorem attempted_words_recorded_once_witness :
    [['C', 'A', 'T'], ['D', 'O', 'G']].Nodup ∧ [['C', 'A', 'T']].Nodup ∧
    (∀ w ∈ [['C', 'A', 'T']], w ∈ [['C', 'A', 'T'], ['D', 'O', 'G']]) ∧
    ∀ rnd : RandomSource,
      (generateWordSearch [['C', 'A', 'T'], ['D', 'O', 'G']] [['C', 'A', 'T']] rnd).placements.length +
        (generateWordSearch [['C', 'A', 'T'], ['D', 'O', 'G']] [['C', 'A', 'T']]
          rnd).unplacedWords.length = 2 :=
  ⟨by decide, by decide, by decide, fun rnd =>
    (attempted_words_recorded_once [['C', 'A', 'T'], ['D', 'O', 'G']] [['C', 'A', 'T']] rnd
      (by decide) (by decide) (by decide)).2.2.2.2.2.1.trans (by decide)⟩

/-- C10: the words are attempted in the order of `wordsToPlace`: the priority
words (a permutation of the priority set) in non-increasing order of length,
followed by the kept non-priority words, none of them a priority word, in
non-increasing order of length. The words of the placements list and the
unplaced list are each a subsequence of that order, so the placements list is
placements of priority words followed by placements of non-priority words. -/
theorem attempt_order (words selectedWords : List Word) (rnd : RandomSource) :
    wordsToPlace words selectedWords =
      sortByLength selectedWords ++ limitedOtherWords words selectedWords ∧
    placementLoop words selectedWords rnd =
      (wordsToPlace words selectedWords).foldl (wordStep rnd selectedWords) initState ∧
    (sortByLength selectedWords).Perm selectedWords ∧
    (sortByLength selectedWords).Pairwise (fun a b => b.length ≤ a.length) ∧
    (∀ w ∈ limitedOtherWords words selectedWords, w ∈ words ∧ w ∉ selectedWords) ∧
    (limitedOtherWords words selectedWords).Pairwise (fun a b => b.length ≤ a.length) ∧
    ((generateWordSearch words selectedWords rnd).placements.map Placement.word).Sublist
      (wordsToPlace words selectedWords) ∧
    (generateWordSearch words selectedWords rnd).unplacedWords.Sublist
      (wordsToPlace words selectedWords) ∧
    (∃ first second : List Placement,
      (generateWordSearch words selectedWords rnd).placements = first ++ second ∧
      (∀ p ∈ first, p.word ∈ selectedWords) ∧ (∀ p ∈ second, p.word ∉ selectedWords)) := by
  have hsub := (placementLoop_lists words selectedWords rnd).1
  refine ⟨rfl, rfl, sortByLength_perm _, sortByLength_sorted _,
    fun w hw => mem_limitedOtherWords hw, ?_, hsub,
    (placementLoop_lists words selectedWords rnd).2.1, ?_⟩
  · exact (sortByLength_sorted (otherWords words selectedWords)).sublist
      (List.take_sublist 20 _)
  · unfold wordsToPlace at hsub
    obtain ⟨l1, l2, heq, h1, h2⟩ := List.sublist_append_iff.mp hsub
    obtain ⟨first, second, hsplit, hf, hs⟩ := List.map_eq_append_iff.mp heq
    refine ⟨first, second, hsplit, ?_, ?_⟩
    · intro p hp
      have : p.word ∈ l1 := hf ▸ List.mem_map_of_mem Placement.word hp
      exact (sortByLength_perm _).subset (h1.subset this)
    · intro p hp
      have : p.word ∈ l2 := hs ▸ List.mem_map_of_mem Placement.word hp
      exact (mem_limitedOtherWords (h2.subset this)).2

/-! ## A word longer than the grid is never placed -/

theorem placementOnGrid_length_le {grid : Grid} {p : Placement}
    (hp : PlacementOnGrid grid p) : p.word.length ≤ GRID_SIZE := by
  obtain ⟨hd, ⟨row, col, hline⟩, hcells⟩ := hp
  by_contra hgt
  have hlen : 15 < p.word.length := Nat.lt_of_not_le hgt
  have h0lt : 0 < p.word.length := Nat.lt_trans (by decide) hlen
  obtain ⟨r0, c0, hpos0, hb0, _⟩ := hcells 0 h0lt
  obtain ⟨r15, c15, hpos15, hb15, _⟩ := hcells 15 hlen
  rw [hline, linePositions_getElem? _ _ _ _ _ _ h0lt] at hpos0
  rw [hline, linePositions_getElem? _ _ _ _ _ _ hlen] at hpos15
  cases hpos0
  cases hpos15
  have hne := direction_ne_zero p.direction hd
  simp only [InBounds, GRID_SIZE, Nat.cast_ofNat, Nat.cast_zero] at hb0 hb15
  omega

theorem generate_placement_length_le (words selectedWords : List Word) (rnd : RandomSource)
    (p : Placement) (hp : p ∈ (generateWordSearch words selectedWords rnd).placements) :
    p.word.length ≤ GRID_SIZE :=
  placementOnGrid_length_le (generate_placementOnGrid words selectedWords rnd p hp)

/-- C11: a word of more than 15 letters can never be placed. `canPlaceWord`
returns false for it on every grid of 15 rows of 15 cells, for every origin
`(row, col)` and every one of the 8 `DIRECTIONS`. So, for every random source,
the loop body run on such a word makes all the attempts of its budget, leaves
grid and placements alone and pushes the word on the unplaced list; and in the
result of `generateWordSearch` such a word, when it is among the words to
place, is the word of no placement and is in the unplaced list, the run
completing as any other: the grid is 15 rows of 15 cells and every word to
place is recorded in the placements or in the unplaced list. -/
theorem long_word_never_placed (word : Word) (hlong : 15 < word.length) :
    (∀ (grid : Grid), IsGrid15 grid → ∀ (row col : Int) (direction : Direction),
      direction ∈ DIRECTIONS → canPlaceWord grid word row col direction = false) ∧
    (∀ (rnd : RandomSource) (selectedWords : List Word) (st : GenState),
      wordStep rnd selectedWords st word =
        { grid := st.grid, placements := st.placements,
          unplacedWords := st.unplacedWords ++ [word],
          calls := st.calls + 3 * (if word ∈ selectedWords then 500 else 100) }) ∧
    (∀ (words selectedWords : List Word) (rnd : RandomSource),
      word ∈ wordsToPlace words selectedWords →
        (∀ p ∈ (generateWordSearch words selectedWords rnd).placements, p.word ≠ word) ∧
        word ∈ (generateWordSearch words selectedWords rnd).unplacedWords ∧
        (generateWordSearch words selectedWords rnd).grid.length = 15 ∧
        (∀ cells ∈ (generateWordSearch words selectedWords rnd).grid, cells.length = 15) ∧
        ((generateWordSearch words selectedWords rnd).placements.map Placement.word ++
          (generateWordSearch words selectedWords rnd).unplacedWords).Perm
            (wordsToPlace words selectedWords)) := by
  have hlen : GRID_SIZE < word.length := hlong
  refine ⟨?_, ?_, ?_⟩
  · intro grid _ row col direction hd
    exact canPlaceWord_long_false grid word hlen row col direction hd
  · intro rnd selectedWords st
    exact wordStep_long rnd selectedWords st word hlen
  · intro words selectedWords rnd hmem
    have hg := generate_isGrid15 words selectedWords rnd
    refine ⟨?_, ?_, hg.1, hg.2, (placementLoop_lists words selectedWords rnd).2.2⟩
    · intro p hp heq
      have hle := generate_placement_length_le words selectedWords rnd p hp
      rw [heq] at hle
      exact absurd hlen (Nat.not_lt_of_le hle)
    · rw [generate_unplacedWords, placementLoop_eq]
      exact foldl_long_unplaced rnd selectedWords _ _ word hmem hlen

/-- C11 at the 16-letter word INTERNATIONALISM as a priority word, with the
word CAT beside it and every draw 0: on the empty grid it cannot be placed from
the top left corner heading right, and the run records it as unplaced. -/
theorem long_word_never_placed_witness :
    15 < longWord.length ∧
    canPlaceWord emptyGrid longWord 0 0 (0, 1) = false ∧
    longWord ∈ wordsToPlace [['C', 'A', 'T'], longWord] [longWord] ∧
    longWord ∈
      (generateWordSearch [['C', 'A', 'T'], longWord] [longWord] zeroSource).unplacedWords :=
  ⟨by decide,
   (long_word_never_placed longWord (by decide)).1 emptyGrid isGrid15_emptyGrid 0 0 (0, 1)
     (by decide),
   by decide,
   ((long_word_never_placed longWord (by decide)).2.2 [['C', 'A', 'T'], longWord] [longWord]
     zeroSource (by decide)).2.1⟩

end WordSearch
